import Mathlib

/-!
Verification of the analytics core of `index_app` (`src/utils/data_processing.py`).

The pandas/numpy code is shallowly embedded as follows.

* A pandas float cell is `PF`: a finite real, `+inf`, `-inf`, or `NaN`
  (pandas uses `NaN` both for missing data and for invalid results).
  The arithmetic on `PF` reproduces IEEE float propagation rules exactly
  (with the finite arithmetic done in exact real numbers).
* A pandas `Series` is a list of (index, value) pairs; a wide `DataFrame`
  is a `WideFrame`: a list of column names plus date-indexed rows.
* In-place mutation (`x[x == 0] = np.nan` in `demeaned_remove_zeros`) is made
  explicit by state passing: the mutating functions return the post-call
  value of their argument alongside their result.
* Python functions that can raise (`KeyError` on a missing column or on a
  frequency absent from a lookup dict) return `Except`/`Option`.
* pandas' calendar bucketing for resample codes ("Y", "7D", "1M", week-end /
  month-end anchors) is external date arithmetic; it is abstracted as an
  arbitrary bucket-assignment map `ℕ → ℕ` on date ordinals.
* `scipy.stats.norm.ppf` is external; the module constant
  `NORMAL_DISTR_RATIO = norm.ppf(0.01) / norm.ppf(0.3)` is abstracted as a
  real parameter `ndr` threaded through the tail-ratio functions, so every
  theorem about them holds for every value of that constant.
-/

noncomputable section

open scoped Classical

namespace IndexApp

/-- Pandas float value: finite real, positive/negative infinity, or NaN. -/
inductive PF where
  | fin (x : ℝ)
  | pinf
  | ninf
  | nan

namespace PF

/-- NaN test (`pd.isna`): only `nan` is NA; infinities are not. -/
def isNan : PF → Bool
  | nan => true
  | _ => false

/-- Finiteness test (`np.isfinite`). -/
def isFinite : PF → Bool
  | fin _ => true
  | _ => false

/-- IEEE addition. -/
def add : PF → PF → PF
  | nan, _ => nan
  | _, nan => nan
  | fin x, fin y => fin (x + y)
  | fin _, pinf => pinf
  | pinf, fin _ => pinf
  | fin _, ninf => ninf
  | ninf, fin _ => ninf
  | pinf, pinf => pinf
  | ninf, ninf => ninf
  | pinf, ninf => nan
  | ninf, pinf => nan

/-- IEEE negation. -/
def neg : PF → PF
  | fin x => fin (-x)
  | pinf => ninf
  | ninf => pinf
  | nan => nan

/-- IEEE subtraction. -/
def sub (a b : PF) : PF := add a (neg b)

/-- IEEE multiplication (`0 * inf = NaN`). -/
def mul : PF → PF → PF
  | nan, _ => nan
  | _, nan => nan
  | fin x, fin y => fin (x * y)
  | fin x, pinf => if 0 < x then pinf else if x < 0 then ninf else nan
  | fin x, ninf => if 0 < x then ninf else if x < 0 then pinf else nan
  | pinf, fin y => if 0 < y then pinf else if y < 0 then ninf else nan
  | ninf, fin y => if 0 < y then ninf else if y < 0 then pinf else nan
  | pinf, pinf => pinf
  | pinf, ninf => ninf
  | ninf, pinf => ninf
  | ninf, ninf => pinf

/-- IEEE division (`x/0` is a signed infinity for `x ≠ 0`, `0/0 = NaN`,
`inf/inf = NaN`, `x/inf = 0`). -/
def div : PF → PF → PF
  | nan, _ => nan
  | _, nan => nan
  | fin x, fin y =>
      if y = 0 then (if x = 0 then nan else if 0 < x then pinf else ninf)
      else fin (x / y)
  | fin _, pinf => fin 0
  | fin _, ninf => fin 0
  | pinf, fin y => if 0 ≤ y then pinf else ninf
  | ninf, fin y => if 0 ≤ y then ninf else pinf
  | pinf, pinf => nan
  | pinf, ninf => nan
  | ninf, pinf => nan
  | ninf, ninf => nan

/-- `np.log`: `log` of a non-positive finite value is `-inf` (at zero) or
`NaN` (negative); `log inf = inf`, `log (-inf) = NaN`. -/
def log : PF → PF
  | fin x => if 0 < x then fin (Real.log x) else if x = 0 then ninf else nan
  | pinf => pinf
  | ninf => nan
  | nan => nan

/-- `np.exp`: `exp (-inf) = 0`, `exp inf = inf`. -/
def exp : PF → PF
  | fin x => fin (Real.exp x)
  | pinf => pinf
  | ninf => fin 0
  | nan => nan

/-- `np.expm1 x = exp x - 1` (same propagation as the composite). -/
def expm1 (a : PF) : PF := sub (exp a) (fin 1)

/-- `np.log1p x = log (1 + x)` (same propagation as the composite). -/
def log1p (a : PF) : PF := log (add a (fin 1))

/-- `np.sqrt`: `NaN` for negative finite values and for `-inf`. -/
def sqrt : PF → PF
  | fin x => if x < 0 then nan else fin (Real.sqrt x)
  | pinf => pinf
  | ninf => nan
  | nan => nan

/-- NaN-skipping max combinator (pandas rolling `max` skips NaN, keeps
infinities; `nan` is the identity, i.e. "no observation yet"). -/
def maxNN : PF → PF → PF
  | nan, b => b
  | a, nan => a
  | pinf, _ => pinf
  | _, pinf => pinf
  | ninf, b => b
  | a, ninf => a
  | fin x, fin y => fin (max x y)

/-- NaN-skipping min combinator (pandas `min` skips NaN). -/
def minNN : PF → PF → PF
  | nan, b => b
  | a, nan => a
  | ninf, _ => ninf
  | _, ninf => ninf
  | pinf, b => b
  | a, pinf => a
  | fin x, fin y => fin (min x y)

end PF

/-- Insert into a list before the first element not `le`-below `a`
(insertion-sort step). -/
def insertLe {α : Type} (le : α → α → Bool) (a : α) : List α → List α
  | [] => [a]
  | b :: bs => if le a b then a :: b :: bs else b :: insertLe le a bs

/-- Insertion sort with a boolean comparator (models pandas' sorted
index/column output of `unstack`). -/
def sortLe {α : Type} (le : α → α → Bool) : List α → List α
  | [] => []
  | a :: as => insertLe le a (sortLe le as)

/-- Lexicographic comparison of character lists (string order). -/
def lexLe : List Char → List Char → Bool
  | [], _ => true
  | _ :: _, [] => false
  | a :: as, b :: bs => if a < b then true else if b < a then false else lexLe as bs

/-- Sorted distinct values of a list of date ordinals (pandas index of an
`unstack`). -/
def sortDedup (l : List ℕ) : List ℕ := sortLe (fun a b => decide (a ≤ b)) l.dedup

/-- Sorted distinct values of a list of symbols (pandas columns of an
`unstack`). -/
def sortDedupStr (l : List String) : List String :=
  sortLe (fun a b => lexLe a.data b.data) l.dedup

/-- The finite values of a list of cells, in order (pandas drops NaN before
computing order statistics; infinite values do not occur in the series these
helpers are applied to). -/
def finVals (l : List PF) : List ℝ :=
  l.filterMap (fun v => match v with | PF.fin x => some x | _ => none)

/-- Number of non-NaN observations (pandas `count`). -/
def pfCount (l : List PF) : ℕ := (l.filter (fun v => !v.isNan)).length

/-- NaN-skipping sum (pandas `sum` with `skipna=True`, `min_count=0`:
an all-NaN or empty list sums to `0.0`; infinities participate). -/
def pfListSum (l : List PF) : PF :=
  (l.filter (fun v => !v.isNan)).foldl PF.add (PF.fin 0)

/-- Plain (non-skipping) sum of cells. -/
def pfTotal (l : List PF) : PF := l.foldl PF.add (PF.fin 0)

/-- pandas `Series.mean` (skipna; NaN on an empty/all-NaN series). -/
def seriesMean (l : List PF) : PF :=
  if pfCount l = 0 then PF.nan else PF.div (pfListSum l) (PF.fin (pfCount l))

/-- pandas `Series.std` (sample standard deviation, `ddof=1`, skipna;
NaN with fewer than two observations). -/
def seriesStd (l : List PF) : PF :=
  let n := pfCount l
  if n < 2 then PF.nan else
  let m := seriesMean l
  let sq := (l.filter (fun v => !v.isNan)).map (fun v => PF.mul (PF.sub v m) (PF.sub v m))
  PF.sqrt (PF.div (pfTotal sq) (PF.fin ((n : ℝ) - 1)))

/-- pandas `Series.skew` (adjusted Fisher-Pearson sample skewness, skipna;
NaN with fewer than three observations, `0` when the second central moment
vanishes, as in pandas' `nanskew`). -/
def seriesSkew (l : List PF) : PF :=
  let n := pfCount l
  if n < 3 then PF.nan else
  let vals := l.filter (fun v => !v.isNan)
  let m := seriesMean l
  let m2 := PF.div (pfTotal (vals.map (fun v => PF.mul (PF.sub v m) (PF.sub v m)))) (PF.fin n)
  let m3 := PF.div (pfTotal (vals.map (fun v =>
    PF.mul (PF.sub v m) (PF.mul (PF.sub v m) (PF.sub v m))))) (PF.fin n)
  if m2 = PF.fin 0 then PF.fin 0 else
  PF.mul (PF.fin ((n : ℝ) * Real.sqrt ((n : ℝ) - 1) / ((n : ℝ) - 2)))
    (PF.div m3 (PF.sqrt (PF.mul m2 (PF.mul m2 m2))))

/-- pandas `Series.quantile` with linear interpolation (skipna; NaN on an
empty/all-NaN series). -/
def seriesQuantile (l : List PF) (q : ℝ) : PF :=
  let vals := sortLe (fun a b => decide (a ≤ b)) (finVals l)
  match vals with
  | [] => PF.nan
  | v0 :: _ =>
    let n := vals.length
    let h := q * ((n : ℝ) - 1)
    let i := ⌊h⌋₊
    let g := h - (i : ℝ)
    let a := vals.getD i v0
    let b := vals.getD (i + 1) a
    PF.fin (a + g * (b - a))

/-- pandas `Series.min` (skipna; NaN on an empty/all-NaN series). -/
def seriesMin (l : List PF) : PF := l.foldl PF.minNN PF.nan

/-- pandas `Series.cumsum` (skipna: NaN entries stay NaN, accumulation
continues past them). -/
def cumsumPF (acc : PF) : List PF → List PF
  | [] => []
  | v :: vs =>
    if v.isNan then PF.nan :: cumsumPF acc vs
    else (PF.add acc v) :: cumsumPF (PF.add acc v) vs

/-- Cumulative sums of a list of reals. -/
def cumsumR (acc : ℝ) : List ℝ → List ℝ
  | [] => []
  | x :: xs => (acc + x) :: cumsumR (acc + x) xs

/-- The window of width `w` ending at position `t` (inclusive). -/
def windowSlice {α : Type} (w t : ℕ) (xs : List α) : List α :=
  (xs.take (t + 1)).drop (t + 1 - w)

/-- pandas `rolling(w, min_periods=1).max()`: NaN-skipping max over the
trailing window, NaN when the window holds no observation. -/
def rollingMaxPF (w : ℕ) (xs : List PF) : List PF :=
  (List.range xs.length).map (fun t => (windowSlice w t xs).foldl PF.maxNN PF.nan)

/-- pandas `rolling(w, min_periods=1).mean()`: arithmetic mean of the non-NaN
observations in the trailing window, NaN when there is none (the series this
is applied to holds only finite values and NaN). -/
def rollingMeanPF (w : ℕ) (xs : List PF) : List PF :=
  (List.range xs.length).map (fun t =>
    let vals := finVals (windowSlice w t xs)
    if vals.length = 0 then PF.nan else PF.fin (vals.sum / (vals.length : ℝ)))

/-- Module constant `BUSINESS_DAYS_IN_YEAR = 256`. -/
def BUSINESS_DAYS_IN_YEAR : ℕ := 256

/-- Module constant `WEEKS_PER_YEAR = 52.25`. -/
def WEEKS_PER_YEAR : ℝ := 52.25

/-- Module constant `MONTHS_PER_YEAR = 12`. -/
def MONTHS_PER_YEAR : ℝ := 12

/-- Module constant `QUANT_PERCENTILE_EXTREME = 0.01`. -/
def QUANT_PERCENTILE_EXTREME : ℝ := 0.01

/-- Module constant `QUANT_PERCENTILE_STD = 0.3`. -/
def QUANT_PERCENTILE_STD : ℝ := 0.3

/-- The `Frequency` enum of the source module. -/
inductive Frequency where
  | Natural
  | Year
  | Month
  | Week
  | BDay
deriving DecidableEq, Repr

/-- `periods_per_year`: `BUSINESS_DAYS_IN_YEAR` at natural frequency,
otherwise the `PERIODS_PER_YEAR` dict; `BDay` is absent from that dict, so
the source raises `KeyError` there (`none`). -/
def periods_per_year : Frequency → Option ℝ
  | .Natural => some (BUSINESS_DAYS_IN_YEAR : ℝ)
  | .Year => some 1
  | .Month => some MONTHS_PER_YEAR
  | .Week => some WEEKS_PER_YEAR
  | .BDay => none

/-- A pandas `Series`: (date ordinal, value) pairs. -/
abbrev Series := List (ℕ × PF)

/-- `series.resample(code).sum()`: group the entries by the bucket their date
falls in and take the NaN-skipping sum of each group, indexed by bucket label
in ascending order.  The calendar arithmetic of the pandas offset code is
abstracted by the bucket-assignment map `b`. -/
def resampleSeries (b : ℕ → ℕ) (s : Series) : Series :=
  (sortDedup (s.map (fun p => b p.1))).map (fun label =>
    (label, pfListSum ((s.filter (fun p => b p.1 = label)).map (fun p => p.2))))

/-- `sum_at_frequency`: identity at natural frequency; otherwise resample-sum
with the code from `at_frequency_str_dict` ("Y"/"7D"/"1M"); `BDay` is absent
from that dict, so the source raises `KeyError` (`none`).  `assign` supplies
the bucket map of each frequency's offset code. -/
def sum_at_frequency (assign : Frequency → ℕ → ℕ) (perc_return : Series) :
    Frequency → Option Series
  | .Natural => some perc_return
  | .Year => some (resampleSeries (assign .Year) perc_return)
  | .Week => some (resampleSeries (assign .Week) perc_return)
  | .Month => some (resampleSeries (assign .Month) perc_return)
  | .BDay => none

/-- `ann_mean_given_frequency`: period mean times periods per year. -/
def ann_mean_given_frequency (s : Series) (f : Frequency) : Option PF :=
  (periods_per_year f).map (fun ppy => PF.mul (seriesMean (s.map (fun p => p.2))) (PF.fin ppy))

/-- `ann_median_given_frequency`: period median times periods per year
(pandas median = linear-interpolation quantile at 0.5). -/
def ann_median_given_frequency (s : Series) (f : Frequency) : Option PF :=
  (periods_per_year f).map (fun ppy =>
    PF.mul (seriesQuantile (s.map (fun p => p.2)) (1 / 2)) (PF.fin ppy))

/-- `ann_std_given_frequency`: period standard deviation times
`periods_per_year ** 0.5` (the square root, the constant being positive). -/
def ann_std_given_frequency (s : Series) (f : Frequency) : Option PF :=
  (periods_per_year f).map (fun ppy =>
    PF.mul (seriesStd (s.map (fun p => p.2))) (PF.fin (Real.sqrt ppy)))

/-- The cumulative growth curve of `calculate_drawdown`:
`perc_return.apply(np.log1p).cumsum().apply(np.exp)`. -/
def drawdownCum (s : Series) : List PF :=
  (cumsumPF (PF.fin 0) ((s.map (fun p => p.2)).map PF.log1p)).map PF.exp

/-- The running maximum of `calculate_drawdown`:
`rolling(len(perc_return)+1, min_periods=1).max()` over the growth curve. -/
def drawdownMax (s : Series) : List PF :=
  rollingMaxPF (s.length + 1) (drawdownCum s)

/-- `calculate_drawdown`: `cum / running_max - 1`, on the input's index. -/
def calculate_drawdown (s : Series) : Series :=
  (s.map (fun p => p.1)).zip
    (List.zipWith (fun c m => PF.sub (PF.div c m) (PF.fin 1)) (drawdownCum s) (drawdownMax s))

/-- `demeaned_remove_zeros`: `x[x == 0] = np.nan; return x - x.mean()`.
The boolean-mask assignment mutates the argument in place; the first
component of the result is the post-call value of the argument, the second
is the returned demeaned series (IEEE `==` holds at `0` only for the finite
value `0`). -/
def demeaned_remove_zeros (x : Series) : Series × Series :=
  let x1 := x.map (fun p => if p.2 = PF.fin 0 then (p.1, PF.nan) else p)
  (x1, x1.map (fun p => (p.1, PF.sub p.2 (seriesMean (x1.map (fun q => q.2))))))

/-- `calculate_quant_ratio_lower`; `ndr` abstracts the module constant
`NORMAL_DISTR_RATIO` (a scipy-derived real).  First component: post-call
value of the argument (mutated through `demeaned_remove_zeros`). -/
def calculate_quant_ratio_lower (ndr : ℝ) (x : Series) : Series × PF :=
  let r := demeaned_remove_zeros x
  let vals := r.2.map (fun p => p.2)
  let raw_ratio := PF.div (seriesQuantile vals QUANT_PERCENTILE_EXTREME)
    (seriesQuantile vals QUANT_PERCENTILE_STD)
  (r.1, PF.div raw_ratio (PF.fin ndr))

/-- `calculate_quant_ratio_upper`; mirror of the lower ratio at the
complementary percentiles. -/
def calculate_quant_ratio_upper (ndr : ℝ) (x : Series) : Series × PF :=
  let r := demeaned_remove_zeros x
  let vals := r.2.map (fun p => p.2)
  let raw_ratio := PF.div (seriesQuantile vals (1 - QUANT_PERCENTILE_EXTREME))
    (seriesQuantile vals (1 - QUANT_PERCENTILE_STD))
  (r.1, PF.div raw_ratio (PF.fin ndr))

/-- The fixed-key mapping returned by `calculate_stats`
(`ann_median` is computed in the source but commented out of the dict). -/
structure StatsBundle where
  ann_mean : PF
  ann_std : PF
  sharpe_ratio : PF
  skew : PF
  avg_drawdown : PF
  max_drawdown : PF
  quant_ratio_lower : PF
  quant_ratio_upper : PF

/-- `calculate_stats`.  `none` models the `KeyError` raised for `BDay`.
The second component is the post-call value of the caller's `perc_return`:
at natural frequency `sum_at_frequency` returns the argument itself, so the
in-place zero-removal of the tail-ratio calls reaches the caller's series;
at every other frequency the resample allocates a fresh series and the
caller's object is untouched. -/
def calculate_stats (ndr : ℝ) (assign : Frequency → ℕ → ℕ) (perc_return : Series)
    (at_frequency : Frequency) : Option (StatsBundle × Series) :=
  match sum_at_frequency assign perc_return at_frequency with
  | none => none
  | some atFreq =>
    match ann_mean_given_frequency atFreq at_frequency,
          ann_median_given_frequency atFreq at_frequency,
          ann_std_given_frequency atFreq at_frequency with
    | some ann_mean, some _, some ann_std =>
      let vals := atFreq.map (fun p => p.2)
      let sharpe_ratio := PF.div ann_mean ann_std
      let skew_at_freq := seriesSkew vals
      let drawdowns := calculate_drawdown atFreq
      let avg_drawdown := seriesMean (drawdowns.map (fun p => p.2))
      let max_drawdown := seriesMin (drawdowns.map (fun p => p.2))
      let r1 := calculate_quant_ratio_lower ndr atFreq
      let r2 := calculate_quant_ratio_upper ndr r1.1
      some ({ ann_mean := ann_mean, ann_std := ann_std, sharpe_ratio := sharpe_ratio,
              skew := skew_at_freq, avg_drawdown := avg_drawdown,
              max_drawdown := max_drawdown, quant_ratio_lower := r1.2,
              quant_ratio_upper := r2.2 },
            if at_frequency = Frequency.Natural then r2.1 else perc_return)
    | _, _, _ => none

/-- `performance_stats_df`: wraps the stats bundle into a one-column table;
the table carries no analytics content beyond the bundle, which is what is
modelled. -/
def performance_stats_df (ndr : ℝ) (assign : Frequency → ℕ → ℕ) (perc_return : Series)
    (at_frequency : Frequency := Frequency.Natural) : Option StatsBundle :=
  (calculate_stats ndr assign perc_return at_frequency).map (fun r => r.1)

/-- A wide date-by-symbol table: column names plus date-indexed rows (each
row's list is aligned with `symbols`). -/
structure WideFrame where
  symbols : List String
  rows : List (ℕ × List PF)

/-- Column `j` of a wide frame as a `Series` (`df[c]`). -/
def columnSeries (w : WideFrame) (j : ℕ) : Series :=
  w.rows.map (fun r => (r.1, r.2.getD j PF.nan))

/-- `performance_stats_instruments`: per-column stats at natural frequency,
one output row per instrument.  (Whether the in-place zero-removal reaches
the parent frame through the `df[c]` column view depends on the pandas
copy-on-write mode; only the returned table is modelled.) -/
def performance_stats_instruments (ndr : ℝ) (assign : Frequency → ℕ → ℕ)
    (w : WideFrame) : List (String × Option StatsBundle) :=
  (List.range w.symbols.length).map (fun j =>
    (w.symbols.getD j "", performance_stats_df ndr assign (columnSeries w j) Frequency.Natural))

/-- Decay coefficient of `ewm(span=32)`: `alpha = 2 / (span + 1)`. -/
def ewmAlpha : ℝ := 2 / (32 + 1)

/-- Weight of the observation `k` steps in the past (`adjust=True`). -/
def ewmW (k : ℕ) : ℝ := (1 - ewmAlpha) ^ k

/-- `Series.ewm(span=32).std()` on a gap-free series (pandas defaults:
`adjust=True`, `bias=False`): the debiased exponentially weighted standard
deviation; undefined (NaN) at the first position, where the debiasing
denominator vanishes. -/
def ewmStd (xs : List ℝ) : List PF :=
  (List.range xs.length).map (fun t =>
    if t = 0 then PF.nan else
    let w : ℕ → ℝ := fun i => ewmW (t - i)
    let sw : ℝ := ∑ i ∈ Finset.range (t + 1), w i
    let sw2 : ℝ := ∑ i ∈ Finset.range (t + 1), (w i) ^ 2
    let m : ℝ := (∑ i ∈ Finset.range (t + 1), w i * xs.getD i 0) / sw
    let v : ℝ := ((∑ i ∈ Finset.range (t + 1), w i * (xs.getD i 0 - m) ^ 2) / sw)
      * (sw ^ 2 / (sw ^ 2 - sw2))
    PF.fin (Real.sqrt v))

/-- `robust_vol` (the later, shadowing definition; the earlier one is
byte-identical).  `businessDaysInYear ** 0.5` is the square root. -/
def robust_vol (daily_returns : List ℝ) (annualise_stdev : Bool := false)
    (businessDaysInYear : ℕ := 256) : List PF :=
  let daily_exp_std_dev := ewmStd daily_returns
  let annualisation_factor : ℝ :=
    if annualise_stdev then Real.sqrt (businessDaysInYear : ℝ) else 1
  let annualised_std_dev := daily_exp_std_dev.map (fun v => PF.mul v (PF.fin annualisation_factor))
  let ten_year_vol := rollingMeanPF (businessDaysInYear * 10) annualised_std_dev
  List.zipWith (fun ty asd => PF.add (PF.mul (PF.fin 0.3) ty) (PF.mul (PF.fin 0.7) asd))
    ten_year_vol annualised_std_dev

/-- A row of the long-format price panel: the key fields `symbol` and `date`
plus the remaining columns as a name-indexed map. -/
structure LongRow where
  symbol : String
  date : ℕ
  vals : String → PF

/-- A long-format price table: the names of its non-key columns plus its
rows.  Column presence tracks what `drop` / column selection may touch. -/
structure LongFrame where
  valCols : List String
  rows : List LongRow

/-- The price cell of symbol `s` at date `d` after
`set_index(['symbol','date'])[[c]].unstack(0)`: the value of the (unique —
duplicates are a caller-side data-integrity error) matching row, else NaN. -/
def cellLookup (df : LongFrame) (s : String) (d : ℕ) (c : String) : PF :=
  match df.rows.find? (fun r => r.symbol == s && r.date == d) with
  | some r => r.vals c
  | none => PF.nan

/-- Ascending distinct dates of the panel (the unstacked index). -/
def panelDates (df : LongFrame) : List ℕ := sortDedup (df.rows.map (fun r => r.date))

/-- Ascending distinct symbols of the panel (the unstacked columns). -/
def panelSymbols (df : LongFrame) : List String :=
  sortDedupStr (df.rows.map (fun r => r.symbol))

/-- `set_index(['symbol','date'])[[c]].unstack(0).droplevel(0, axis=1)`:
the wide date-by-symbol price table. -/
def pricesWide (df : LongFrame) (close_col : String) : WideFrame :=
  ⟨panelSymbols df, (panelDates df).map (fun d =>
    (d, (panelSymbols df).map (fun s => cellLookup df s d close_col)))⟩

/-- `apply(f)` cell-wise on a wide frame. -/
def mapCellsW (f : PF → PF) (w : WideFrame) : WideFrame :=
  ⟨w.symbols, w.rows.map (fun r => (r.1, r.2.map f))⟩

/-- `DataFrame.diff()`: first row all-NaN, then element-wise difference of
consecutive rows, per column independently. -/
def diffW (w : WideFrame) : WideFrame :=
  ⟨w.symbols,
   match w.rows with
   | [] => []
   | r0 :: rest =>
     (r0.1, r0.2.map (fun _ => PF.nan)) ::
       List.zipWith (fun pr cur => (cur.1, List.zipWith PF.sub cur.2 pr.2)) (r0 :: rest) rest⟩

/-- `DataFrame.dropna()` (default `axis=0, how='any'`): keep exactly the rows
none of whose cells is NaN. -/
def dropnaW (w : WideFrame) : WideFrame :=
  ⟨w.symbols, w.rows.filter (fun r => r.2.all (fun v => !v.isNan))⟩

/-- `DataFrame.resample(code).sum()`: per column, the NaN-skipping sum of the
rows falling in each bucket, indexed by ascending bucket label; the pandas
offset code's calendar arithmetic is abstracted by `b`. -/
def resampleSumW (b : ℕ → ℕ) (w : WideFrame) : WideFrame :=
  ⟨w.symbols, (sortDedup (w.rows.map (fun r => b r.1))).map (fun label =>
    (label, (List.range w.symbols.length).map (fun j =>
      pfListSum ((w.rows.filter (fun r => b r.1 = label)).map (fun r => r.2.getD j PF.nan)))))⟩

/-- The earlier `calculate_returns_wide` definition (later shadowed): drops
`['index_name','index_type','index_category']` and always reads `close`.
`drop` raises `KeyError` when a listed column is absent, and the `[['close']]`
selection when `close` is not among the remaining columns (`Except.error`). -/
def calculate_returns_wide_first (df : LongFrame) (kind : String := "log")
    (resample : Option (ℕ → ℕ) := none) (dropna : Bool := true) : Except Unit WideFrame :=
  if ("index_name" ∈ df.valCols ∧ "index_type" ∈ df.valCols ∧ "index_category" ∈ df.valCols)
      ∧ "close" ∈ (((df.valCols.erase "index_name").erase "index_type").erase "index_category") then
    let log_returns := diffW (mapCellsW PF.log (pricesWide df "close"))
    let log_returns := if dropna then dropnaW log_returns else log_returns
    let log_returns :=
      match resample with
      | some b => resampleSumW b log_returns
      | none => log_returns
    Except.ok (if kind = "log" then log_returns else mapCellsW PF.expm1 log_returns)
  else Except.error ()

/-- The later (effective) `calculate_returns_wide`: drops only
`['index_name']` and reads a configurable `close_col`. -/
def calculate_returns_wide (df : LongFrame) (kind : String := "log")
    (resample : Option (ℕ → ℕ) := none) (dropna : Bool := true)
    (close_col : String := "close") : Except Unit WideFrame :=
  if "index_name" ∈ df.valCols ∧ close_col ∈ (df.valCols.erase "index_name") then
    let log_returns := diffW (mapCellsW PF.log (pricesWide df close_col))
    let log_returns := if dropna then dropnaW log_returns else log_returns
    let log_returns :=
      match resample with
      | some b => resampleSumW b log_returns
      | none => log_returns
    Except.ok (if kind = "log" then log_returns else mapCellsW PF.expm1 log_returns)
  else Except.error ()

/-- Cumulative NAV rebased to 100: the base point followed by 100 times the
growth curve of `calculate_drawdown` applied to the return series. -/
def navRebased (s : Series) : List PF :=
  PF.fin 100 :: (drawdownCum s).map (fun v => PF.mul (PF.fin 100) v)

/-- A long-panel row carrying a close price (the descriptive string columns
are never read by the analytics; their cells are immaterial). -/
def mkRow (s : String) (d : ℕ) (c : ℝ) : LongRow :=
  ⟨s, d, fun col => if col = "close" then PF.fin c else PF.nan⟩

/-- The raw panel's non-key columns. -/
def stdCols : List String := ["close", "index_name", "index_type", "index_category"]

/-- The spec's round-trip price series `[100, 105, 110, 90, 95]` as a
one-symbol panel. -/
def panelRT : LongFrame :=
  ⟨stdCols, [mkRow "A" 0 100, mkRow "A" 1 105, mkRow "A" 2 110, mkRow "A" 3 90, mkRow "A" 4 95]⟩

/-- Two symbols with misaligned calendars: "A" trades on days 1, 2, 3 and
"B" only on days 2, 3 (all prices 1). -/
def panelGap : LongFrame :=
  ⟨stdCols, [mkRow "A" 1 1, mkRow "A" 2 1, mkRow "A" 3 1, mkRow "B" 2 1, mkRow "B" 3 1]⟩

/-- A panel whose second observed price is zero. -/
def panelZero : LongFrame := ⟨stdCols, [mkRow "A" 0 1, mkRow "A" 1 0]⟩

/-- A two-symbol panel with positive prices (for plain witnesses). -/
def panelPos : LongFrame :=
  ⟨stdCols, [mkRow "A" 0 1, mkRow "A" 1 (Real.exp 1), mkRow "B" 0 1, mkRow "B" 1 1]⟩

/-- A return series holding an exact zero. -/
def seriesWithZero : Series := [(0, PF.fin 0), (1, PF.fin 1)]

/-- An all-zero one-column return frame. -/
def frameAllZero : WideFrame := ⟨["A"], [(0, [PF.fin 0]), (1, [PF.fin 0])]⟩

/-- A concrete bucket-assignment family (used to instantiate witnesses). -/
def trivAssign : Frequency → ℕ → ℕ := fun _ d => d / 2

/-- The real-valued growth curve `exp (cumsum (log (1 + r)))` of a
(finite, above −100%) return list. -/
def growthR (rs : List ℝ) : List ℝ :=
  (cumsumR 0 (rs.map (fun r => Real.log (1 + r)))).map Real.exp

namespace PF

theorem isNan_fin (x : ℝ) : (fin x).isNan = false := rfl

theorem isNan_PFnan : (nan).isNan = true := rfl

theorem add_fin_fin (a b : ℝ) : add (fin a) (fin b) = fin (a + b) := rfl

theorem add_nan_right (a : PF) : add a nan = nan := by cases a <;> rfl

theorem add_nan_left (a : PF) : add nan a = nan := by cases a <;> rfl

theorem sub_fin_fin (a b : ℝ) : sub (fin a) (fin b) = fin (a - b) := by
  simp [sub, add, neg, sub_eq_add_neg]

theorem mul_fin_fin (a b : ℝ) : mul (fin a) (fin b) = fin (a * b) := rfl

theorem mul_nan_right (a : PF) : mul a nan = nan := by cases a <;> rfl

theorem mul_nan_left (a : PF) : mul nan a = nan := by cases a <;> rfl

theorem mul_fin_one (a : PF) : mul a (fin 1) = a := by
  cases a with
  | fin x => simp [mul]
  | pinf => simp [mul]
  | ninf => simp [mul]
  | nan => rfl

theorem div_fin_fin {b : ℝ} (a : ℝ) (hb : b ≠ 0) : div (fin a) (fin b) = fin (a / b) := by
  simp [div, hb]

theorem div_zero_zero : div (fin 0) (fin 0) = nan := by simp [div]

theorem div_fin_nan (a : PF) : div a nan = nan := by cases a <;> rfl

theorem div_nan_left (a : PF) : div nan a = nan := by cases a <;> rfl

theorem log_fin_pos {x : ℝ} (h : 0 < x) : log (fin x) = fin (Real.log x) := by
  simp [log, h]

theorem log_fin_zero : log (fin 0) = ninf := by simp [log]

theorem log_fin_neg {x : ℝ} (h : x < 0) : log (fin x) = nan := by
  simp [log, not_lt_of_lt h, ne_of_lt h]

theorem exp_fin (x : ℝ) : exp (fin x) = fin (Real.exp x) := rfl

theorem expm1_fin (x : ℝ) : expm1 (fin x) = fin (Real.exp x - 1) := by
  simp [expm1, exp, sub_fin_fin]

theorem log1p_fin {r : ℝ} (h : -1 < r) : log1p (fin r) = fin (Real.log (1 + r)) := by
  have h1 : 0 < r + 1 := by linarith
  simp [log1p, add_fin_fin, log, h1, add_comm]

theorem sqrt_fin_nonneg {x : ℝ} (h : 0 ≤ x) : sqrt (fin x) = fin (Real.sqrt x) := by
  simp [sqrt, not_lt_of_le h]

theorem maxNN_nan_left (a : PF) : maxNN nan a = a := by cases a <;> rfl

theorem maxNN_fin_fin (a b : ℝ) : maxNN (fin a) (fin b) = fin (max a b) := rfl

theorem sub_not_finite {a b : PF} (h : a.isFinite = false ∨ b.isFinite = false) :
    (sub a b).isFinite = false := by
  cases a <;> cases b <;> simp_all [isFinite, sub, add, neg]

theorem sub_nan_left (b : PF) : sub nan b = nan := by cases b <;> rfl

theorem sub_nan_right (a : PF) : sub a nan = nan := by cases a <;> rfl

theorem log_fin_nonpos {p : ℝ} (h : p ≤ 0) : (log (fin p)).isFinite = false := by
  rcases lt_or_eq_of_le h with hlt | heq
  · rw [log_fin_neg hlt]
    rfl
  · rw [heq, log_fin_zero]
    rfl

theorem not_finite_ne_fin {v : PF} (h : v.isFinite = false) : ∀ x : ℝ, v ≠ fin x := by
  cases v <;> simp_all [isFinite]

end PF

/-- `getElem?` of a `zipWith` is the pointwise application. -/
theorem zipWith_getElem? {α β γ : Type} (f : α → β → γ) (as : List α) (bs : List β)
    (n : ℕ) :
    (List.zipWith f as bs)[n]? = (as[n]?).bind (fun a => (bs[n]?).map (fun b => f a b)) := by
  induction as generalizing bs n with
  | nil => cases bs <;> simp
  | cons a as ih =>
    cases bs with
    | nil => simp
    | cons b bs =>
      cases n with
      | zero => simp
      | succ n => simpa using ih bs n

/-- Membership in `insertLe` output. -/
theorem insertLe_perm {α : Type} (le : α → α → Bool) (a : α) :
    ∀ l : List α, (insertLe le a l).Perm (a :: l)
  | [] => List.Perm.refl _
  | b :: bs => by
    rw [insertLe]
    by_cases h : le a b
    · simp [h]
    · simp only [h, if_false]
      exact ((insertLe_perm le a bs).cons b).trans (List.Perm.swap a b bs)

/-- `sortLe` permutes its input. -/
theorem sortLe_perm {α : Type} (le : α → α → Bool) :
    ∀ l : List α, (sortLe le l).Perm l
  | [] => List.Perm.refl _
  | a :: as => (insertLe_perm le a (sortLe le as)).trans ((sortLe_perm le as).cons a)

/-- `sortDedup` has no duplicate entries. -/
theorem sortDedup_nodup (l : List ℕ) : (sortDedup l).Nodup :=
  ((sortLe_perm _ l.dedup).nodup_iff).mpr (List.nodup_dedup l)

/-- C10: on a long panel containing all of `symbol`, `date`, `close`,
`index_name`, `index_type` and `index_category`, the earlier
`calculate_returns_wide` definition (dropping the three descriptive columns)
and the later shadowing one (dropping only `index_name`, with its default
`close_col = 'close'`) return the same wide return table, for every `kind`,
`resample` and `dropna`. -/
theorem C10_two_defs_extensionally_equal (df : LongFrame) (kind : String)
    (resample : Option (ℕ → ℕ)) (dropna : Bool)
    (h1 : "index_name" ∈ df.valCols) (h2 : "index_type" ∈ df.valCols)
    (h3 : "index_category" ∈ df.valCols)
    (h4 : "close" ∈ (((df.valCols.erase "index_name").erase "index_type").erase "index_category")) :
    calculate_returns_wide_first df kind resample dropna
      = calculate_returns_wide df kind resample dropna "close" := by
  have h4' : "close" ∈ df.valCols.erase "index_name" :=
    List.mem_of_mem_erase (List.mem_of_mem_erase h4)
  rw [calculate_returns_wide_first, calculate_returns_wide,
    if_pos ⟨⟨h1, h2, h3⟩, h4⟩, if_pos ⟨h1, h4'⟩]

/-- Witness for C10 at a concrete panel. -/
theorem C10_two_defs_extensionally_equal_witness :
    ("index_name" ∈ panelRT.valCols ∧ "index_type" ∈ panelRT.valCols
      ∧ "index_category" ∈ panelRT.valCols
      ∧ "close" ∈ (((panelRT.valCols.erase "index_name").erase "index_type").erase "index_category"))
    ∧ calculate_returns_wide_first panelRT "simple" none false
        = calculate_returns_wide panelRT "simple" none false "close" :=
  ⟨by decide,
   C10_two_defs_extensionally_equal panelRT "simple" none false
     (by decide) (by decide) (by decide) (by decide)⟩

/-- C2 (failing input): `calculate_quant_ratio_lower` mutates the series the
caller passed in — the exact-zero observation is replaced by NaN in place via
`demeaned_remove_zeros`, and the same post-state is what `calculate_stats`
at natural frequency leaves in the caller's series. -/
theorem C2_zero_entries_mutated_in_place :
    (calculate_quant_ratio_lower 1 seriesWithZero).1 = [(0, PF.nan), (1, PF.fin 1)]
    ∧ (calculate_quant_ratio_lower 1 seriesWithZero).1 ≠ seriesWithZero
    ∧ (∃ st, calculate_stats 1 trivAssign seriesWithZero Frequency.Natural
        = some (st, [(0, PF.nan), (1, PF.fin 1)])) := by
  have hpost : (calculate_quant_ratio_lower 1 seriesWithZero).1 = [(0, PF.nan), (1, PF.fin 1)] := by
    simp [calculate_quant_ratio_lower, demeaned_remove_zeros, seriesWithZero]
  refine ⟨hpost, ?_, ?_⟩
  · rw [hpost]
    simp [seriesWithZero]
  · simp [calculate_stats, sum_at_frequency, ann_mean_given_frequency,
      ann_median_given_frequency, ann_std_given_frequency, periods_per_year,
      calculate_quant_ratio_upper, calculate_quant_ratio_lower,
      demeaned_remove_zeros, seriesWithZero]

/-- A list all of whose cells are NaN has no finite values. -/
theorem finVals_nil_of_allnan {l : List PF} (h : ∀ v ∈ l, v = PF.nan) : finVals l = [] := by
  induction l with
  | nil => rfl
  | cons v vs ih =>
    have hv := h v (List.mem_cons_self v vs)
    subst hv
    simpa [finVals] using ih (fun u hu => h u (List.mem_cons_of_mem _ hu))

/-- pandas `count` of an all-NaN list is zero. -/
theorem pfCount_allnan {l : List PF} (h : ∀ v ∈ l, v = PF.nan) : pfCount l = 0 := by
  unfold pfCount
  rw [List.filter_eq_nil_iff.mpr]
  · rfl
  · intro v hv
    rw [h v hv]
    simp [PF.isNan]

/-- Quantile of an all-NaN series is NaN. -/
theorem seriesQuantile_allnan {l : List PF} (h : ∀ v ∈ l, v = PF.nan) (q : ℝ) :
    seriesQuantile l q = PF.nan := by
  unfold seriesQuantile
  rw [finVals_nil_of_allnan h]
  rfl

/-- Mean of an all-NaN series is NaN. -/
theorem seriesMean_allnan {l : List PF} (h : ∀ v ∈ l, v = PF.nan) :
    seriesMean l = PF.nan := by
  unfold seriesMean
  rw [pfCount_allnan h]
  rfl

/-- Folding IEEE addition over zeros stays at zero. -/
theorem foldl_add_replicate_zero (n : ℕ) :
    List.foldl PF.add (PF.fin 0) (List.replicate n (PF.fin 0)) = PF.fin 0 := by
  induction n with
  | zero => rfl
  | succ k ih =>
    rw [List.replicate_succ, List.foldl_cons, PF.add_fin_fin, add_zero]
    exact ih

/-- A replicated-zero list survives the NaN filter unchanged. -/
theorem filter_replicate_zero (n : ℕ) :
    (List.replicate n (PF.fin 0)).filter (fun v => !v.isNan) = List.replicate n (PF.fin 0) :=
  List.filter_eq_self.mpr (fun v hv => by rw [List.eq_of_mem_replicate hv]; rfl)

/-- pandas `count` of `n` zeros is `n`. -/
theorem pfCount_replicate_zero (n : ℕ) : pfCount (List.replicate n (PF.fin 0)) = n := by
  unfold pfCount
  rw [filter_replicate_zero]
  exact List.length_replicate ..

/-- Mean of `n` zeros: NaN when empty, else zero. -/
theorem seriesMean_replicate_zero (n : ℕ) :
    seriesMean (List.replicate n (PF.fin 0)) = if n = 0 then PF.nan else PF.fin 0 := by
  have hsum : pfListSum (List.replicate n (PF.fin 0)) = PF.fin 0 := by
    unfold pfListSum
    rw [filter_replicate_zero]
    exact foldl_add_replicate_zero n
  by_cases hn : n = 0
  · subst hn
    simp [seriesMean, pfCount]
  · unfold seriesMean
    rw [pfCount_replicate_zero, hsum, if_neg hn, if_neg hn,
      PF.div_fin_fin 0 (by exact_mod_cast hn), zero_div]

/-- Sample standard deviation of `n` zeros: NaN below two observations,
else zero. -/
theorem seriesStd_replicate_zero (n : ℕ) :
    seriesStd (List.replicate n (PF.fin 0)) = if n < 2 then PF.nan else PF.fin 0 := by
  by_cases hn : n < 2
  · unfold seriesStd
    rw [pfCount_replicate_zero, if_pos hn, if_pos hn]
  · have hn0 : n ≠ 0 := by omega
    have hne : ((n : ℝ) - 1) ≠ 0 := by
      have h2 : (2 : ℝ) ≤ (n : ℝ) := by exact_mod_cast (by omega : 2 ≤ n)
      intro hc
      linarith
    unfold seriesStd
    rw [if_neg hn]
    simp only [pfCount_replicate_zero, if_neg hn, filter_replicate_zero,
      seriesMean_replicate_zero, if_neg hn0, List.map_replicate,
      PF.sub_fin_fin, sub_zero, PF.mul_fin_fin, mul_zero, pfTotal,
      foldl_add_replicate_zero, PF.div_fin_fin 0 hne, zero_div,
      PF.sqrt_fin_nonneg le_rfl, Real.sqrt_zero]

/-- The annualized Sharpe ratio of an all-zero series is NaN for every
series length (0/0, 0/NaN or NaN/NaN). -/
theorem sharpe_replicate_zero_nan (n : ℕ) (pm ps : ℝ) :
    (PF.div (PF.mul (seriesMean (List.replicate n (PF.fin 0))) (PF.fin pm))
      (PF.mul (seriesStd (List.replicate n (PF.fin 0))) (PF.fin ps))).isFinite = false := by
  rw [seriesMean_replicate_zero, seriesStd_replicate_zero]
  by_cases h0 : n = 0
  · simp [h0, PF.mul_nan_left, PF.div_nan_left, PF.isFinite]
  · by_cases h2 : n < 2
    · simp [h0, h2, PF.mul_fin_fin, PF.mul_nan_left, PF.div_fin_nan, PF.isFinite, zero_mul]
    · simp [h0, h2, PF.mul_fin_fin, zero_mul, PF.div, PF.isFinite]

/-- `demeaned_remove_zeros` on an all-zero series: the argument comes back
with every value NaN, and the returned demeaned series is all-NaN too. -/
theorem demeaned_remove_zeros_allzero {x : Series} (hz : ∀ p ∈ x, p.2 = PF.fin 0) :
    (demeaned_remove_zeros x).1 = x.map (fun p => (p.1, PF.nan))
      ∧ ∀ p ∈ (demeaned_remove_zeros x).2, p.2 = PF.nan := by
  have hx1 : x.map (fun p => if p.2 = PF.fin 0 then (p.1, PF.nan) else p)
      = x.map (fun p => (p.1, PF.nan)) :=
    List.map_congr_left (fun p hp => by rw [if_pos (hz p hp)])
  constructor
  · simpa [demeaned_remove_zeros] using hx1
  · intro p hp
    simp only [demeaned_remove_zeros, hx1] at hp
    rcases List.mem_map.mp hp with ⟨q, hq, rfl⟩
    rcases List.mem_map.mp hq with ⟨r, _, rfl⟩
    exact PF.sub_nan_left _

/-- `demeaned_remove_zeros` on an all-NaN series: the argument is untouched
and the returned series is all-NaN. -/
theorem demeaned_remove_zeros_allnan {x : Series} (hn : ∀ p ∈ x, p.2 = PF.nan) :
    (demeaned_remove_zeros x).1 = x
      ∧ ∀ p ∈ (demeaned_remove_zeros x).2, p.2 = PF.nan := by
  have hx1 : x.map (fun p => if p.2 = PF.fin 0 then (p.1, PF.nan) else p) = x := by
    rw [List.map_congr_left (g := id) (fun p hp => by
      rw [hn p hp]
      simp), List.map_id]
  constructor
  · simpa [demeaned_remove_zeros] using hx1
  · intro p hp
    simp only [demeaned_remove_zeros, hx1] at hp
    rcases List.mem_map.mp hp with ⟨q, hq, rfl⟩
    rw [hn q hq]
    exact PF.sub_nan_left _

/-- The lower tail ratio of an all-zero series is NaN, and the call leaves
the caller's series all-NaN. -/
theorem quant_ratio_lower_allzero (ndr : ℝ) {x : Series} (hz : ∀ p ∈ x, p.2 = PF.fin 0) :
    (calculate_quant_ratio_lower ndr x).2 = PF.nan
      ∧ ∀ p ∈ (calculate_quant_ratio_lower ndr x).1, p.2 = PF.nan := by
  obtain ⟨h1, h2⟩ := demeaned_remove_zeros_allzero hz
  have hvals : ∀ v ∈ (demeaned_remove_zeros x).2.map (fun p => p.2), v = PF.nan := by
    intro v hv
    rcases List.mem_map.mp hv with ⟨p, hp, rfl⟩
    exact h2 p hp
  constructor
  · simp only [calculate_quant_ratio_lower]
    rw [seriesQuantile_allnan hvals, seriesQuantile_allnan hvals,
      PF.div_nan_left, PF.div_nan_left]
  · intro p hp
    simp only [calculate_quant_ratio_lower] at hp
    rw [h1] at hp
    rcases List.mem_map.mp hp with ⟨q, _, rfl⟩
    rfl

/-- The upper tail ratio of an all-NaN series is NaN and leaves the series
unchanged (the second pass of `calculate_stats` finds no zeros left). -/
theorem quant_ratio_upper_allnan (ndr : ℝ) {x : Series} (hn : ∀ p ∈ x, p.2 = PF.nan) :
    (calculate_quant_ratio_upper ndr x).2 = PF.nan
      ∧ (calculate_quant_ratio_upper ndr x).1 = x := by
  obtain ⟨h1, h2⟩ := demeaned_remove_zeros_allnan hn
  have hvals : ∀ v ∈ (demeaned_remove_zeros x).2.map (fun p => p.2), v = PF.nan := by
    intro v hv
    rcases List.mem_map.mp hv with ⟨p, hp, rfl⟩
    exact h2 p hp
  constructor
  · simp only [calculate_quant_ratio_upper]
    rw [seriesQuantile_allnan hvals, seriesQuantile_allnan hvals,
      PF.div_nan_left, PF.div_nan_left]
  · simpa [calculate_quant_ratio_upper] using h1

/-- C7: for an all-zero return series (any length), `calculate_stats` at
natural frequency returns a bundle — no exception — whose `sharpe_ratio`,
`quant_ratio_lower` and `quant_ratio_upper` are all non-finite, and
`performance_stats_instruments` still emits the row for that instrument,
carrying exactly that bundle. -/
theorem C7_all_zero_series_nonfinite_stats (ndr : ℝ) (assign : Frequency → ℕ → ℕ)
    (w : WideFrame) (j : ℕ) (c : String) (hj : w.symbols[j]? = some c)
    (hcol : ∀ r ∈ w.rows, r.2.getD j PF.nan = PF.fin 0) :
    ∃ st post,
      calculate_stats ndr assign (columnSeries w j) Frequency.Natural = some (st, post)
      ∧ st.sharpe_ratio.isFinite = false
      ∧ st.quant_ratio_lower.isFinite = false
      ∧ st.quant_ratio_upper.isFinite = false
      ∧ (performance_stats_instruments ndr assign w)[j]? = some (c, some st) := by
  have hz : ∀ p ∈ columnSeries w j, p.2 = PF.fin 0 := by
    intro p hp
    rcases List.mem_map.mp hp with ⟨r, hr, rfl⟩
    exact hcol r hr
  have hvals : (columnSeries w j).map (fun p => p.2)
      = List.replicate w.rows.length (PF.fin 0) := by
    have hmem : ∀ v ∈ (columnSeries w j).map (fun p => p.2), v = PF.fin 0 := by
      intro v hv
      rcases List.mem_map.mp hv with ⟨p, hp, rfl⟩
      exact hz p hp
    have hlen : ((columnSeries w j).map (fun p => p.2)).length = w.rows.length := by
      simp [columnSeries]
    rw [← hlen]
    exact List.eq_replicate_of_mem hmem
  obtain ⟨hlo_val, hlo_state⟩ := quant_ratio_lower_allzero ndr hz
  obtain ⟨hup_val, _⟩ := quant_ratio_upper_allnan ndr hlo_state
  have hcs : calculate_stats ndr assign (columnSeries w j) Frequency.Natural = some
      ({ ann_mean := PF.mul (seriesMean ((columnSeries w j).map (fun p => p.2)))
           (PF.fin ((BUSINESS_DAYS_IN_YEAR : ℕ) : ℝ)),
         ann_std := PF.mul (seriesStd ((columnSeries w j).map (fun p => p.2)))
           (PF.fin (Real.sqrt ((BUSINESS_DAYS_IN_YEAR : ℕ) : ℝ))),
         sharpe_ratio := PF.div
           (PF.mul (seriesMean ((columnSeries w j).map (fun p => p.2)))
             (PF.fin ((BUSINESS_DAYS_IN_YEAR : ℕ) : ℝ)))
           (PF.mul (seriesStd ((columnSeries w j).map (fun p => p.2)))
             (PF.fin (Real.sqrt ((BUSINESS_DAYS_IN_YEAR : ℕ) : ℝ)))),
         skew := seriesSkew ((columnSeries w j).map (fun p => p.2)),
         avg_drawdown := seriesMean ((calculate_drawdown (columnSeries w j)).map (fun p => p.2)),
         max_drawdown := seriesMin ((calculate_drawdown (columnSeries w j)).map (fun p => p.2)),
         quant_ratio_lower := (calculate_quant_ratio_lower ndr (columnSeries w j)).2,
         quant_ratio_upper := (calculate_quant_ratio_upper ndr
           (calculate_quant_ratio_lower ndr (columnSeries w j)).1).2 },
       (calculate_quant_ratio_upper ndr
         (calculate_quant_ratio_lower ndr (columnSeries w j)).1).1) := rfl
  refine ⟨_, _, hcs, ?_, ?_, ?_, ?_⟩
  · show (PF.div (PF.mul (seriesMean ((columnSeries w j).map (fun p => p.2)))
        (PF.fin ((BUSINESS_DAYS_IN_YEAR : ℕ) : ℝ)))
      (PF.mul (seriesStd ((columnSeries w j).map (fun p => p.2)))
        (PF.fin (Real.sqrt ((BUSINESS_DAYS_IN_YEAR : ℕ) : ℝ))))).isFinite = false
    rw [hvals]
    exact sharpe_replicate_zero_nan _ _ _
  · show (calculate_quant_ratio_lower ndr (columnSeries w j)).2.isFinite = false
    rw [hlo_val]
    rfl
  · show (calculate_quant_ratio_upper ndr
      (calculate_quant_ratio_lower ndr (columnSeries w j)).1).2.isFinite = false
    rw [hup_val]
    rfl
  · have hjlt : j < w.symbols.length := (List.getElem?_eq_some.mp hj).1
    show ((List.range w.symbols.length).map (fun j =>
      (w.symbols.getD j "", performance_stats_df ndr assign (columnSeries w j)
        Frequency.Natural)))[j]? = _
    rw [List.getElem?_map, List.getElem?_range hjlt]
    have hgd : w.symbols.getD j "" = c := by
      rw [List.getD_eq_getElem?_getD, hj]
      rfl
    simp only [Option.map_some', hgd]
    rw [show performance_stats_df ndr assign (columnSeries w j) Frequency.Natural
      = (calculate_stats ndr assign (columnSeries w j) Frequency.Natural).map
          (fun r => r.1) from rfl, hcs]
    rfl

/-- Witness for C7 at a concrete two-row all-zero column. -/
theorem C7_all_zero_series_nonfinite_stats_witness :
    (frameAllZero.symbols[0]? = some "A"
      ∧ ∀ r ∈ frameAllZero.rows, r.2.getD 0 PF.nan = PF.fin 0)
    ∧ ∃ st post,
      calculate_stats 1 trivAssign (columnSeries frameAllZero 0) Frequency.Natural
          = some (st, post)
        ∧ st.sharpe_ratio.isFinite = false
        ∧ st.quant_ratio_lower.isFinite = false
        ∧ st.quant_ratio_upper.isFinite = false
        ∧ (performance_stats_instruments 1 trivAssign frameAllZero)[0]? = some ("A", some st) := by
  have h2 : ∀ r ∈ frameAllZero.rows, r.2.getD 0 PF.nan = PF.fin 0 := by
    intro r hr
    simp only [frameAllZero, List.mem_cons, List.not_mem_nil, or_false] at hr
    rcases hr with h | h
    · subst h
      rfl
    · subst h
      rfl
  exact ⟨⟨rfl, h2⟩, C7_all_zero_series_nonfinite_stats 1 trivAssign frameAllZero 0 "A" rfl h2⟩

/-- `zipWith` only depends on the function's values at list members. -/
theorem zipWith_congr_mem {α β γ : Type} (f g : α → β → γ) :
    ∀ (l1 : List α) (l2 : List β), (∀ a ∈ l1, ∀ b ∈ l2, f a b = g a b) →
      List.zipWith f l1 l2 = List.zipWith g l1 l2
  | [], _, _ => by simp
  | _ :: _, [], _ => by simp
  | a :: as, b :: bs, h => by
    rw [List.zipWith_cons_cons, List.zipWith_cons_cons,
      h a (List.mem_cons_self a as) b (List.mem_cons_self b bs),
      zipWith_congr_mem f g as bs
        (fun x hx y hy => h x (List.mem_cons_of_mem _ hx) y (List.mem_cons_of_mem _ hy))]

/-- Every member of a trailing window is a member of the series. -/
theorem mem_of_mem_windowSlice {α : Type} {w t : ℕ} {l : List α} {a : α}
    (h : a ∈ windowSlice w t l) : a ∈ l :=
  List.mem_of_mem_take (List.mem_of_mem_drop h)

/-- Every cell of `ewmStd` is finite or NaN (never infinite). -/
theorem ewmStd_fin_or_nan (xs : List ℝ) :
    ∀ v ∈ ewmStd xs, v = PF.nan ∨ ∃ x, v = PF.fin x := by
  intro v hv
  rcases List.mem_map.mp hv with ⟨t, _, rfl⟩
  by_cases ht : t = 0
  · left
    simp [ht]
  · right
    rw [if_neg ht]
    exact ⟨_, rfl⟩

/-- Every cell of `rollingMeanPF` is finite or NaN. -/
theorem rollingMeanPF_fin_or_nan (w : ℕ) (l : List PF) :
    ∀ v ∈ rollingMeanPF w l, v = PF.nan ∨ ∃ x, v = PF.fin x := by
  intro v hv
  rcases List.mem_map.mp hv with ⟨t, _, rfl⟩
  by_cases h : (finVals (windowSlice w t l)).length = 0
  · left
    simp [h]
  · right
    refine ⟨(finVals (windowSlice w t l)).sum / ((finVals (windowSlice w t l)).length : ℝ), ?_⟩
    simp [h]

/-- Scaling commutes with extracting the finite values on a finite-or-NaN
list. -/
theorem finVals_map_scale {l : List PF} (c : ℝ)
    (h : ∀ v ∈ l, v = PF.nan ∨ ∃ x, v = PF.fin x) :
    finVals (l.map (fun v => PF.mul v (PF.fin c))) = (finVals l).map (fun x => x * c) := by
  induction l with
  | nil => rfl
  | cons v vs ih =>
    have hv := h v (List.mem_cons_self v vs)
    have hrest := ih (fun u hu => h u (List.mem_cons_of_mem _ hu))
    rcases hv with rfl | ⟨x, rfl⟩
    · simpa [finVals, PF.mul_nan_left] using hrest
    · simpa [finVals, PF.mul_fin_fin] using hrest

/-- A rolling mean of a pointwise-scaled finite-or-NaN series is the scaled
rolling mean. -/
theorem rollingMeanPF_map_scale (w : ℕ) (c : ℝ) {l : List PF}
    (h : ∀ v ∈ l, v = PF.nan ∨ ∃ x, v = PF.fin x) :
    rollingMeanPF w (l.map (fun v => PF.mul v (PF.fin c)))
      = (rollingMeanPF w l).map (fun v => PF.mul v (PF.fin c)) := by
  unfold rollingMeanPF
  rw [List.length_map, List.map_map]
  refine List.map_congr_left (fun t _ => ?_)
  have hw : windowSlice w t (l.map (fun v => PF.mul v (PF.fin c)))
      = (windowSlice w t l).map (fun v => PF.mul v (PF.fin c)) := by
    unfold windowSlice
    rw [← List.map_take, ← List.map_drop]
  rw [hw, finVals_map_scale c (fun v hv => h v (mem_of_mem_windowSlice hv))]
  by_cases h0 : (finVals (windowSlice w t l)).length = 0
  · simp only [Function.comp_apply, List.length_map, if_pos h0, PF.mul_nan_left]
  · simp only [Function.comp_apply, List.length_map, if_neg h0, PF.mul_fin_fin,
      List.sum_map_mul_right, List.map_id']
    rw [mul_div_right_comm]

/-- The 0.3/0.7 blend commutes with a common scaling on finite-or-NaN
inputs. -/
theorem blend_scale {a b : PF} (c : ℝ)
    (ha : a = PF.nan ∨ ∃ x, a = PF.fin x) (hb : b = PF.nan ∨ ∃ x, b = PF.fin x) :
    PF.add (PF.mul (PF.fin 0.3) (PF.mul a (PF.fin c)))
        (PF.mul (PF.fin 0.7) (PF.mul b (PF.fin c)))
      = PF.mul (PF.add (PF.mul (PF.fin 0.3) a) (PF.mul (PF.fin 0.7) b)) (PF.fin c) := by
  rcases ha with rfl | ⟨x, rfl⟩ <;> rcases hb with rfl | ⟨y, rfl⟩
  · simp [PF.mul_nan_left, PF.mul_nan_right, PF.add_nan_left]
  · simp [PF.mul_nan_left, PF.mul_nan_right, PF.add_nan_left]
  · simp [PF.mul_nan_left, PF.mul_nan_right, PF.add_nan_right]
  · simp only [PF.mul_fin_fin, PF.add_fin_fin]
    congr 1
    ring

/-- C6: `robust_vol` keeps the input's index, each point is the fixed-weight
blend `0.3 σ_slow + 0.7 σ_fast` where `σ_fast` is the span-32
exponentially-weighted standard deviation (annualised by `√periods` when
requested) and `σ_slow` its rolling mean over `10 × periods-per-year`
observations with minimum one observation, and annualising before the blend
equals scaling the whole non-annualised output by `√periods`. -/
theorem C6_robust_vol_blend (xs : List ℝ) (annualise : Bool) (bd : ℕ) :
    (robust_vol xs annualise bd).length = xs.length
    ∧ (∀ t : ℕ,
        (robust_vol xs annualise bd).getD t PF.nan
          = PF.add
              (PF.mul (PF.fin 0.3)
                ((rollingMeanPF (bd * 10) ((ewmStd xs).map (fun v =>
                    PF.mul v (PF.fin (if annualise then Real.sqrt (bd : ℝ) else 1))))).getD
                  t PF.nan))
              (PF.mul (PF.fin 0.7)
                (((ewmStd xs).map (fun v =>
                    PF.mul v (PF.fin (if annualise then Real.sqrt (bd : ℝ) else 1)))).getD
                  t PF.nan)))
    ∧ robust_vol xs true bd
        = (robust_vol xs false bd).map (fun v => PF.mul v (PF.fin (Real.sqrt (bd : ℝ)))) := by
  have hlenE : (ewmStd xs).length = xs.length := by
    simp [ewmStd]
  have hlenA : ((ewmStd xs).map (fun v =>
      PF.mul v (PF.fin (if annualise then Real.sqrt (bd : ℝ) else 1)))).length = xs.length := by
    rw [List.length_map, hlenE]
  have hlenR : (rollingMeanPF (bd * 10) ((ewmStd xs).map (fun v =>
      PF.mul v (PF.fin (if annualise then Real.sqrt (bd : ℝ) else 1))))).length = xs.length := by
    simp [rollingMeanPF, hlenA]
  refine ⟨?_, ?_, ?_⟩
  · show (List.zipWith _ _ _).length = xs.length
    rw [List.length_zipWith, hlenR, hlenA, min_self]
  · intro t
    show (List.zipWith _ _ _).getD t PF.nan = _
    rw [List.getD_eq_getElem?_getD, zipWith_getElem?,
      List.getD_eq_getElem?_getD, List.getD_eq_getElem?_getD]
    by_cases ht : t < xs.length
    · obtain ⟨a, ha⟩ : ∃ a, (rollingMeanPF (bd * 10) ((ewmStd xs).map (fun v =>
          PF.mul v (PF.fin (if annualise then Real.sqrt (bd : ℝ) else 1)))))[t]? = some a :=
        ⟨_, List.getElem?_eq_getElem (hlenR ▸ ht)⟩
      obtain ⟨b, hb⟩ : ∃ b, ((ewmStd xs).map (fun v =>
          PF.mul v (PF.fin (if annualise then Real.sqrt (bd : ℝ) else 1))))[t]? = some b :=
        ⟨_, List.getElem?_eq_getElem (hlenA ▸ ht)⟩
      rw [ha, hb]
      rfl
    · have h1 : (rollingMeanPF (bd * 10) ((ewmStd xs).map (fun v =>
          PF.mul v (PF.fin (if annualise then Real.sqrt (bd : ℝ) else 1)))))[t]? = none :=
        List.getElem?_eq_none (by rw [hlenR]; omega)
      have h2 : ((ewmStd xs).map (fun v =>
          PF.mul v (PF.fin (if annualise then Real.sqrt (bd : ℝ) else 1))))[t]? = none :=
        List.getElem?_eq_none (by rw [hlenA]; omega)
      rw [h1, h2]
      simp [PF.mul_nan_right, PF.add_nan_left]
  · have hid : (ewmStd xs).map (fun v => PF.mul v (PF.fin 1)) = ewmStd xs := by
      rw [List.map_congr_left (g := id) (fun v _ => PF.mul_fin_one v), List.map_id]
    show List.zipWith (fun ty asd => PF.add (PF.mul (PF.fin 0.3) ty) (PF.mul (PF.fin 0.7) asd))
        (rollingMeanPF (bd * 10) ((ewmStd xs).map (fun v => PF.mul v (PF.fin (Real.sqrt (bd : ℝ))))))
        ((ewmStd xs).map (fun v => PF.mul v (PF.fin (Real.sqrt (bd : ℝ)))))
      = (List.zipWith (fun ty asd => PF.add (PF.mul (PF.fin 0.3) ty) (PF.mul (PF.fin 0.7) asd))
          (rollingMeanPF (bd * 10) ((ewmStd xs).map (fun v => PF.mul v (PF.fin 1))))
          ((ewmStd xs).map (fun v => PF.mul v (PF.fin 1)))).map
          (fun v => PF.mul v (PF.fin (Real.sqrt (bd : ℝ))))
    rw [hid, rollingMeanPF_map_scale _ _ (ewmStd_fin_or_nan xs), List.map_zipWith,
      List.zipWith_map]
    exact zipWith_congr_mem _ _ _ _ (fun a ha b hb =>
      blend_scale _ (rollingMeanPF_fin_or_nan _ _ a ha) (ewmStd_fin_or_nan xs b hb))

/-- The seed is below a `max`-fold. -/
theorem le_foldl_max : ∀ (l : List ℝ) (a : ℝ), a ≤ l.foldl max a
  | [], _ => le_refl _
  | x :: xs, a => le_trans (le_max_left a x) (le_foldl_max xs (max a x))

/-- Every member is below a `max`-fold. -/
theorem mem_le_foldl_max : ∀ (l : List ℝ) (a x : ℝ), x ∈ l → x ≤ l.foldl max a
  | [], _, _, hx => absurd hx (List.not_mem_nil _)
  | y :: ys, a, x, hx => by
    rcases List.mem_cons.mp hx with rfl | hmem
    · exact le_trans (le_max_right a x) (le_foldl_max ys (max a x))
    · exact mem_le_foldl_max ys (max a y) x hmem

/-- A `max`-fold is the seed or a member. -/
theorem foldl_max_mem : ∀ (l : List ℝ) (a : ℝ), l.foldl max a = a ∨ l.foldl max a ∈ l
  | [], _ => Or.inl rfl
  | y :: ys, a => by
    rcases foldl_max_mem ys (max a y) with h | h
    · rcases max_choice a y with hm | hm
      · exact Or.inl (by rw [List.foldl_cons, h, hm])
      · exact Or.inr (by rw [List.foldl_cons, h, hm]; exact List.mem_cons_self y ys)
    · exact Or.inr (List.mem_cons_of_mem _ h)

/-- `cumsumR` preserves length. -/
theorem cumsumR_length : ∀ (acc : ℝ) (l : List ℝ), (cumsumR acc l).length = l.length
  | _, [] => rfl
  | acc, x :: xs => by
    rw [cumsumR, List.length_cons, List.length_cons, cumsumR_length (acc + x) xs]

/-- `growthR` preserves length. -/
theorem growthR_length (rs : List ℝ) : (growthR rs).length = rs.length := by
  rw [growthR, List.length_map, cumsumR_length, List.length_map]

/-- Every point of the growth curve is positive. -/
theorem growthR_pos (rs : List ℝ) : ∀ g ∈ growthR rs, 0 < g := by
  intro g hg
  rcases List.mem_map.mp hg with ⟨x, _, rfl⟩
  exact Real.exp_pos x

/-- `cumsumPF` on an all-finite list is the finite cumulative sum. -/
theorem cumsumPF_fins : ∀ (acc : ℝ) (l : List ℝ),
    cumsumPF (PF.fin acc) (l.map PF.fin) = (cumsumR acc l).map PF.fin
  | _, [] => rfl
  | acc, x :: xs => by
    rw [List.map_cons, cumsumPF, if_neg (by rw [PF.isNan_fin]; exact Bool.false_ne_true),
      PF.add_fin_fin, cumsumR, List.map_cons, cumsumPF_fins (acc + x) xs]

/-- The drawdown growth curve of an all-finite, above −100% return series is
the real growth curve. -/
theorem drawdownCum_fins (s : Series) (rs : List ℝ)
    (hs : s.map (fun p => p.2) = rs.map PF.fin) (hr : ∀ r ∈ rs, -1 < r) :
    drawdownCum s = (growthR rs).map PF.fin := by
  unfold drawdownCum growthR
  rw [hs, List.map_map]
  have hlog : rs.map (PF.log1p ∘ PF.fin) = (rs.map (fun r => Real.log (1 + r))).map PF.fin := by
    rw [List.map_map]
    exact List.map_congr_left (fun r hrr => PF.log1p_fin (hr r hrr))
  rw [hlog, cumsumPF_fins, List.map_map, List.map_map]
  rfl

/-- Folding the NaN-skipping max over a nonempty all-finite list is the real
`max`-fold from its head. -/
theorem foldl_maxNN_fins : ∀ (a : ℝ) (l : List ℝ),
    List.foldl PF.maxNN (PF.fin a) (l.map PF.fin) = PF.fin (l.foldl max a)
  | _, [] => rfl
  | a, x :: xs => by
    rw [List.map_cons, List.foldl_cons, PF.maxNN_fin_fin, List.foldl_cons,
      foldl_maxNN_fins (max a x) xs]

/-- `drawdownMax` at an in-range position is the finite maximum of the growth
curve over the points up to and including the current one: it is attained at
some such point and bounds all of them (causality plus the running-max
property). -/
theorem drawdownMax_spec (s : Series) (rs : List ℝ)
    (hs : s.map (fun p => p.2) = rs.map PF.fin) (hr : ∀ r ∈ rs, -1 < r)
    (t : ℕ) (ht : t < s.length) :
    ∃ m, (drawdownMax s)[t]? = some (PF.fin m)
      ∧ (∀ i, i ≤ t → (growthR rs).getD i 0 ≤ m)
      ∧ (∃ i, i ≤ t ∧ (growthR rs).getD i 0 = m) := by
  have hn : s.length = rs.length := by
    have := congrArg List.length hs
    simpa using this
  have hG : (growthR rs).length = rs.length := growthR_length rs
  have hcum : drawdownCum s = (growthR rs).map PF.fin := drawdownCum_fins s rs hs hr
  have htG : t < (growthR rs).length := by omega
  -- the trailing window of width `len+1` is the whole prefix
  have hwin : windowSlice (s.length + 1) t ((growthR rs).map PF.fin)
      = ((growthR rs).take (t + 1)).map PF.fin := by
    unfold windowSlice
    rw [Nat.sub_eq_zero_of_le (by omega), List.drop_zero, List.map_take]
  have hlen' : ((growthR rs).map PF.fin).length = s.length := by
    rw [List.length_map]; omega
  have htmap : t < ((growthR rs).map PF.fin).length := by rw [List.length_map]; omega
  obtain ⟨a, as, htake⟩ : ∃ a as, (growthR rs).take (t + 1) = a :: as := by
    rcases hh : (growthR rs).take (t + 1) with _ | ⟨a, as⟩
    · exfalso
      have hlt := congrArg List.length hh
      rw [List.length_take] at hlt
      simp only [List.length_nil, Nat.min_eq_zero_iff] at hlt
      omega
    · exact ⟨a, as, rfl⟩
  refine ⟨as.foldl max a, ?_, ?_, ?_⟩
  · unfold drawdownMax rollingMaxPF
    rw [hcum, List.getElem?_map, List.getElem?_range htmap,
      Option.map_some', hwin, htake, List.map_cons, List.foldl_cons,
      PF.maxNN_nan_left, foldl_maxNN_fins]
  · intro i hi
    have hiG : i < (growthR rs).length := by omega
    have hmem : (growthR rs).getD i 0 ∈ (growthR rs).take (t + 1) := by
      rw [List.getD_eq_getElem?_getD, List.getElem?_eq_getElem hiG, Option.getD_some]
      refine List.getElem?_mem (n := i) ?_
      rw [List.getElem?_take, if_pos (by omega : i < t + 1), List.getElem?_eq_getElem hiG]
    rw [htake] at hmem
    rcases List.mem_cons.mp hmem with rfl | hmem'
    · exact le_foldl_max as _
    · exact mem_le_foldl_max as a _ hmem'
  · have hmem : as.foldl max a ∈ (growthR rs).take (t + 1) := by
      rw [htake]
      rcases foldl_max_mem as a with h | h
      · rw [h]; exact List.mem_cons_self a as
      · exact List.mem_cons_of_mem _ h
    rcases List.mem_iff_getElem.mp hmem with ⟨i, hilen, hival⟩
    have hit : i ≤ t := by
      have := hilen
      rw [List.length_take] at this
      omega
    have hiG : i < (growthR rs).length := by omega
    refine ⟨i, hit, ?_⟩
    rw [List.getD_eq_getElem?_getD, List.getElem?_eq_getElem hiG, Option.getD_some]
    rw [← hival, List.getElem_take]

/-- C4: on an all-finite return series above −100%, `calculate_drawdown`
keeps the input's index; every value is a finite number ≤ 0; the value is
exactly 0 wherever the growth curve `exp (cumsum (log1p r))` attains a new
running maximum; and the running maximum it divides by is attained within,
bounds, and depends only on the points up to and including the current one,
and is non-decreasing. -/
theorem C4_drawdown_underwater (s : Series) (rs : List ℝ)
    (hs : s.map (fun p => p.2) = rs.map PF.fin) (hr : ∀ r ∈ rs, -1 < r) :
    (calculate_drawdown s).map (fun p => p.1) = s.map (fun p => p.1)
    ∧ drawdownCum s = (growthR rs).map PF.fin
    ∧ (∀ t, t < s.length →
        ∃ v m,
          ((calculate_drawdown s).map (fun p => p.2))[t]? = some (PF.fin v)
          ∧ (drawdownMax s)[t]? = some (PF.fin m)
          ∧ v ≤ 0
          ∧ (∀ i, i ≤ t → (growthR rs).getD i 0 ≤ m)
          ∧ (∃ i, i ≤ t ∧ (growthR rs).getD i 0 = m)
          ∧ ((∀ i, i ≤ t → (growthR rs).getD i 0 ≤ (growthR rs).getD t 0) → v = 0))
    ∧ (∀ t t', t ≤ t' → t' < s.length → ∀ m m',
        (drawdownMax s)[t]? = some (PF.fin m) → (drawdownMax s)[t']? = some (PF.fin m') →
        m ≤ m') := by
  have hn : s.length = rs.length := by
    have := congrArg List.length hs
    simpa using this
  have hG : (growthR rs).length = rs.length := growthR_length rs
  have hcum : drawdownCum s = (growthR rs).map PF.fin := drawdownCum_fins s rs hs hr
  have hcumlen : (drawdownCum s).length = s.length := by
    rw [hcum, List.length_map]; omega
  have hmaxlen : (drawdownMax s).length = s.length := by
    unfold drawdownMax rollingMaxPF
    rw [List.length_map, List.length_range, hcumlen]
  have hddlen : (List.zipWith (fun c m => PF.sub (PF.div c m) (PF.fin 1))
      (drawdownCum s) (drawdownMax s)).length = s.length := by
    rw [List.length_zipWith, hcumlen, hmaxlen, min_self]
  have hfst : (calculate_drawdown s).map (fun p => p.1) = s.map (fun p => p.1) := by
    unfold calculate_drawdown
    exact List.map_fst_zip _ _ (by rw [List.length_map, hddlen])
  have hsnd : (calculate_drawdown s).map (fun p => p.2)
      = List.zipWith (fun c m => PF.sub (PF.div c m) (PF.fin 1))
          (drawdownCum s) (drawdownMax s) := by
    unfold calculate_drawdown
    exact List.map_snd_zip _ _ (by rw [List.length_map, hddlen])
  refine ⟨hfst, hcum, ?_, ?_⟩
  · intro t ht
    have htG : t < (growthR rs).length := by omega
    obtain ⟨m, hm, hub, i0, hi0, hi0v⟩ := drawdownMax_spec s rs hs hr t ht
    have hmpos : 0 < m := by
      rw [← hi0v]
      have hi0G : i0 < (growthR rs).length := by omega
      refine growthR_pos rs _ ?_
      rw [List.getD_eq_getElem?_getD, List.getElem?_eq_getElem hi0G, Option.getD_some]
      exact List.getElem_mem _
    have hcumt : (drawdownCum s)[t]? = some (PF.fin ((growthR rs).getD t 0)) := by
      rw [hcum, List.getElem?_map, List.getElem?_eq_getElem htG, Option.map_some',
        List.getD_eq_getElem?_getD, List.getElem?_eq_getElem htG, Option.getD_some]
    have hgt_le : (growthR rs).getD t 0 ≤ m := hub t le_rfl
    refine ⟨(growthR rs).getD t 0 / m - 1, m, ?_, hm, ?_, hub, ⟨i0, hi0, hi0v⟩, ?_⟩
    · rw [hsnd, zipWith_getElem?, hcumt, hm]
      simp only [Option.map_some', Option.some_bind]
      rw [PF.div_fin_fin _ (ne_of_gt hmpos), PF.sub_fin_fin]
    · have : (growthR rs).getD t 0 / m ≤ 1 := (div_le_one hmpos).mpr hgt_le
      linarith
    · intro hmax
      have hmle : m ≤ (growthR rs).getD t 0 := by
        rw [← hi0v]
        exact hmax i0 hi0
      have hmeq : m = (growthR rs).getD t 0 := le_antisymm hmle hgt_le
      rw [← hmeq, div_self (ne_of_gt hmpos)]
      ring
  · intro t t' htt' ht' m m' h1 h2
    obtain ⟨m0, hm0, _, i0, hi0, hi0v⟩ := drawdownMax_spec s rs hs hr t (by omega)
    obtain ⟨m1, hm1, hub1, _⟩ := drawdownMax_spec s rs hs hr t' ht'
    have he0 : m0 = m := by
      rw [h1] at hm0
      exact (by simpa using hm0 : m = m0).symm
    have he1 : m1 = m' := by
      rw [h2] at hm1
      exact (by simpa using hm1 : m' = m1).symm
    rw [← he0, ← he1, ← hi0v]
    exact hub1 i0 (le_trans hi0 htt')

/-- Witness for C4 at the two-point return series `[1, -1/2]`. -/
theorem C4_drawdown_underwater_witness :
    ([((0 : ℕ), PF.fin 1), (1, PF.fin (-(1/2)))].map (fun p => p.2)
        = [(1 : ℝ), -(1/2)].map PF.fin
      ∧ (∀ r ∈ [(1 : ℝ), -(1/2)], -1 < r))
    ∧ ((calculate_drawdown [((0 : ℕ), PF.fin 1), (1, PF.fin (-(1/2)))]).map (fun p => p.1)
        = [((0 : ℕ), PF.fin 1), (1, PF.fin (-(1/2)))].map (fun p => p.1)
      ∧ drawdownCum [((0 : ℕ), PF.fin 1), (1, PF.fin (-(1/2)))]
          = (growthR [(1 : ℝ), -(1/2)]).map PF.fin
      ∧ (∀ t, t < ([((0 : ℕ), PF.fin 1), (1, PF.fin (-(1/2)))] : Series).length →
          ∃ v m,
            ((calculate_drawdown [((0 : ℕ), PF.fin 1), (1, PF.fin (-(1/2)))]).map
                (fun p => p.2))[t]? = some (PF.fin v)
            ∧ (drawdownMax [((0 : ℕ), PF.fin 1), (1, PF.fin (-(1/2)))])[t]? = some (PF.fin m)
            ∧ v ≤ 0
            ∧ (∀ i, i ≤ t → (growthR [(1 : ℝ), -(1/2)]).getD i 0 ≤ m)
            ∧ (∃ i, i ≤ t ∧ (growthR [(1 : ℝ), -(1/2)]).getD i 0 = m)
            ∧ ((∀ i, i ≤ t → (growthR [(1 : ℝ), -(1/2)]).getD i 0
                  ≤ (growthR [(1 : ℝ), -(1/2)]).getD t 0) → v = 0))
      ∧ (∀ t t', t ≤ t' → t' < ([((0 : ℕ), PF.fin 1), (1, PF.fin (-(1/2)))] : Series).length →
          ∀ m m',
          (drawdownMax [((0 : ℕ), PF.fin 1), (1, PF.fin (-(1/2)))])[t]? = some (PF.fin m) →
          (drawdownMax [((0 : ℕ), PF.fin 1), (1, PF.fin (-(1/2)))])[t']? = some (PF.fin m') →
          m ≤ m')) := by
  have hone : (-1 : ℝ) < 1 := by norm_num
  have hhalf : (-1 : ℝ) < -(1/2) := by norm_num
  refine ⟨⟨rfl, ?_⟩, C4_drawdown_underwater _ _ rfl ?_⟩
  · intro r hrr
    rcases List.mem_cons.mp hrr with rfl | hrr
    · exact hone
    · rcases List.mem_cons.mp hrr with rfl | hrr
      · exact hhalf
      · exact absurd hrr (List.not_mem_nil r)
  · intro r hrr
    rcases List.mem_cons.mp hrr with rfl | hrr
    · exact hone
    · rcases List.mem_cons.mp hrr with rfl | hrr
      · exact hhalf
      · exact absurd hrr (List.not_mem_nil r)

/-- The unstacked price row at position `t` holds date `t`'s cell for every
symbol column. -/
theorem pricesWide_rows_getElem? (df : LongFrame) (cc : String) (t d : ℕ)
    (hd : (panelDates df)[t]? = some d) :
    (pricesWide df cc).rows[t]? =
      some (d, (panelSymbols df).map (fun s => cellLookup df s d cc)) := by
  show ((panelDates df).map _)[t]? = _
  rw [List.getElem?_map, hd, Option.map_some']

/-- Cell-wise application indexes pointwise. -/
theorem mapCellsW_rows_getElem? (f : PF → PF) (w : WideFrame) (t : ℕ) :
    (mapCellsW f w).rows[t]? = (w.rows[t]?).map (fun r => (r.1, r.2.map f)) := by
  show (w.rows.map _)[t]? = _
  rw [List.getElem?_map]

/-- `diff` at position `t+1` subtracts row `t` from row `t+1`, per column. -/
theorem diffW_rows_succ (w : WideFrame) (t : ℕ) (p c : ℕ × List PF)
    (hp : w.rows[t]? = some p) (hc : w.rows[t + 1]? = some c) :
    (diffW w).rows[t + 1]? = some (c.1, List.zipWith PF.sub c.2 p.2) := by
  rcases hrows : w.rows with _ | ⟨r0, rest⟩
  · rw [hrows] at hp
    simp at hp
  · rw [hrows] at hp hc
    simp only [diffW, hrows]
    rw [List.getElem?_cons_succ, zipWith_getElem?, hp]
    have hrest : rest[t]? = some c := by
      rw [← List.getElem?_cons_succ (a := r0)]
      exact hc
    rw [hrest]
    rfl

/-- Pairing `zipWith` keyed on the second list keeps the second list's
keys. -/
theorem map_fst_zipWith_key {α β γ δ : Type} (g : β → γ) (f : α → β → δ) :
    ∀ (l1 : List α) (l2 : List β), l2.length ≤ l1.length →
      (List.zipWith (fun a b => (g b, f a b)) l1 l2).map Prod.fst = l2.map g
  | _, [], _ => by simp
  | [], _ :: _, h => by simp at h
  | a :: as, b :: bs, h => by
    rw [List.zipWith_cons_cons, List.map_cons, List.map_cons,
      map_fst_zipWith_key g f as bs (by simpa using h)]

/-- `diff` preserves the date keys. -/
theorem diffW_map_fst (w : WideFrame) :
    (diffW w).rows.map Prod.fst = w.rows.map Prod.fst := by
  rcases hrows : w.rows with _ | ⟨r0, rest⟩
  · simp [diffW, hrows]
  · simp only [diffW, hrows]
    rw [List.map_cons,
      map_fst_zipWith_key (Prod.fst) (fun pr cur => List.zipWith PF.sub cur.2 pr.2) (r0 :: rest)
        rest (by simp), List.map_cons]

/-- Cell-wise application preserves the date keys. -/
theorem mapCellsW_map_fst (f : PF → PF) (w : WideFrame) :
    (mapCellsW f w).rows.map Prod.fst = w.rows.map Prod.fst := by
  show (w.rows.map _).map Prod.fst = _
  rw [List.map_map]
  rfl

/-- The unstacked table's date keys are the panel's sorted distinct dates. -/
theorem pricesWide_map_fst (df : LongFrame) (cc : String) :
    (pricesWide df cc).rows.map Prod.fst = panelDates df := by
  show ((panelDates df).map _).map Prod.fst = _
  rw [List.map_map]
  exact List.map_id' _

/-- In a list with distinct keys, a member sharing the key of the entry at
position `t` is that entry. -/
theorem nodup_key_mem_eq {α : Type} {l : List (ℕ × α)} (hnd : (l.map Prod.fst).Nodup)
    {t : ℕ} {d : ℕ} {v u : α} (ht : l[t]? = some (d, v)) (hm : (d, u) ∈ l) : u = v := by
  rcases List.mem_iff_getElem?.mp hm with ⟨k, hk⟩
  have hkf : (l.map Prod.fst)[k]? = some d := by
    rw [List.getElem?_map, hk]
    rfl
  have htf : (l.map Prod.fst)[t]? = some d := by
    rw [List.getElem?_map, ht]
    rfl
  have hklen : k < (l.map Prod.fst).length := (List.getElem?_eq_some.mp hkf).1
  have htlen : t < (l.map Prod.fst).length := (List.getElem?_eq_some.mp htf).1
  have hkt : k = t := by
    have h1 : (l.map Prod.fst)[k] = d := (List.getElem?_eq_some.mp hkf).2
    have h2 : (l.map Prod.fst)[t] = d := (List.getElem?_eq_some.mp htf).2
    exact (List.Nodup.getElem_inj_iff hnd).mp (h1.trans h2.symm)
  rw [hkt] at hk
  rw [hk] at ht
  have : ((d, u) : ℕ × α) = (d, v) := Option.some.inj ht
  exact congrArg Prod.snd this

/-- The log-return cell at date position `t+1`, column `j`, is the difference
of the logs of that symbol's prices at the two consecutive dates — built from
that column's cells only. -/
theorem logdiff_cell (df : LongFrame) (cc : String) (t j d' d : ℕ) (s : String)
    (hd' : (panelDates df)[t]? = some d') (hd : (panelDates df)[t + 1]? = some d)
    (hsym : (panelSymbols df)[j]? = some s) :
    ∃ vals, (diffW (mapCellsW PF.log (pricesWide df cc))).rows[t + 1]? = some (d, vals)
      ∧ vals[j]? = some (PF.sub (PF.log (cellLookup df s d cc))
          (PF.log (cellLookup df s d' cc))) := by
  have hpt := pricesWide_rows_getElem? df cc t d' hd'
  have hpt1 := pricesWide_rows_getElem? df cc (t + 1) d hd
  have hlt : (mapCellsW PF.log (pricesWide df cc)).rows[t]?
      = some (d', ((panelSymbols df).map (fun s => cellLookup df s d' cc)).map PF.log) := by
    rw [mapCellsW_rows_getElem?, hpt]
    rfl
  have hlt1 : (mapCellsW PF.log (pricesWide df cc)).rows[t + 1]?
      = some (d, ((panelSymbols df).map (fun s => cellLookup df s d cc)).map PF.log) := by
    rw [mapCellsW_rows_getElem?, hpt1]
    rfl
  have hD := diffW_rows_succ _ t _ _ hlt hlt1
  refine ⟨_, hD, ?_⟩
  rw [zipWith_getElem?, List.getElem?_map, List.getElem?_map, List.getElem?_map,
    List.getElem?_map, hsym]
  rfl

/-- C1: with positive observed prices `p` at date position `t` and `q` at the
consecutive position `t+1` for symbol `s`, `calculate_returns_wide`
(no resample) puts `ln q − ln p` in that cell when `kind = 'log'` and
`exp (ln q − ln p) − 1` for any other kind; the cell is built from that
symbol's prices alone.  With `dropna = false` the row sits at position `t+1`;
with either `dropna`, any surviving row carrying date `d` holds that value. -/
theorem C1_log_and_simple_return_formula (df : LongFrame) (kind : String) (dropna : Bool)
    (hcols : "index_name" ∈ df.valCols ∧ "close" ∈ df.valCols.erase "index_name")
    (t j d' d : ℕ) (s : String) (p q : ℝ)
    (hd' : (panelDates df)[t]? = some d') (hd : (panelDates df)[t + 1]? = some d)
    (hsym : (panelSymbols df)[j]? = some s)
    (hp : cellLookup df s d' "close" = PF.fin p) (hq : cellLookup df s d "close" = PF.fin q)
    (hppos : 0 < p) (hqpos : 0 < q) :
    ∃ w, calculate_returns_wide df kind none dropna "close" = Except.ok w
      ∧ (∀ row ∈ w.rows, row.1 = d →
          row.2[j]? = some (if kind = "log" then PF.fin (Real.log q - Real.log p)
            else PF.fin (Real.exp (Real.log q - Real.log p) - 1)))
      ∧ (dropna = false → ∃ vals, w.rows[t + 1]? = some (d, vals)
          ∧ vals[j]? = some (if kind = "log" then PF.fin (Real.log q - Real.log p)
              else PF.fin (Real.exp (Real.log q - Real.log p) - 1))) := by
  obtain ⟨vals, hD, hval⟩ := logdiff_cell df "close" t j d' d s hd' hd hsym
  rw [hp, hq, PF.log_fin_pos hqpos, PF.log_fin_pos hppos, PF.sub_fin_fin] at hval
  have hndF : ((diffW (mapCellsW PF.log (pricesWide df "close"))).rows.map Prod.fst).Nodup := by
    rw [diffW_map_fst, mapCellsW_map_fst, pricesWide_map_fst]
    exact sortDedup_nodup _
  have hXsub : ∀ r ∈ (if dropna then dropnaW (diffW (mapCellsW PF.log (pricesWide df "close")))
      else diffW (mapCellsW PF.log (pricesWide df "close"))).rows,
      r ∈ (diffW (mapCellsW PF.log (pricesWide df "close"))).rows := by
    cases dropna
    · intro r hrr
      exact hrr
    · intro r hrr
      exact List.mem_of_mem_filter hrr
  rw [calculate_returns_wide, if_pos hcols]
  refine ⟨_, rfl, ?_, ?_⟩
  · intro row hrow hrowd
    replace hrow : row ∈ (if kind = "log"
        then (if dropna then dropnaW (diffW (mapCellsW PF.log (pricesWide df "close")))
          else diffW (mapCellsW PF.log (pricesWide df "close")))
        else mapCellsW PF.expm1
          (if dropna then dropnaW (diffW (mapCellsW PF.log (pricesWide df "close")))
            else diffW (mapCellsW PF.log (pricesWide df "close")))).rows := hrow
    by_cases hk : kind = "log"
    · rw [if_pos hk] at hrow
      rw [if_pos hk]
      have hmem : ((d, row.2) : ℕ × List PF) ∈
          (diffW (mapCellsW PF.log (pricesWide df "close"))).rows := by
        rw [← hrowd]
        exact hXsub _ hrow
      rw [nodup_key_mem_eq hndF hD hmem]
      exact hval
    · rw [if_neg hk] at hrow
      rw [if_neg hk]
      replace hrow : row ∈ (if dropna
          then dropnaW (diffW (mapCellsW PF.log (pricesWide df "close")))
          else diffW (mapCellsW PF.log (pricesWide df "close"))).rows.map
            (fun r => (r.1, r.2.map PF.expm1)) := hrow
      rcases List.mem_map.mp hrow with ⟨r, hr, rfl⟩
      have hrd : r.1 = d := hrowd
      have hmem : ((d, r.2) : ℕ × List PF) ∈
          (diffW (mapCellsW PF.log (pricesWide df "close"))).rows := by
        rw [← hrd]
        exact hXsub _ hr
      have hr2 : r.2 = vals := nodup_key_mem_eq hndF hD hmem
      show (r.2.map PF.expm1)[j]? = _
      rw [hr2, List.getElem?_map, hval, Option.map_some', PF.expm1_fin]
  · intro hdf
    subst hdf
    by_cases hk : kind = "log"
    · subst hk
      exact ⟨vals, hD, by simpa using hval⟩
    · rw [if_neg hk]
      refine ⟨vals.map PF.expm1, ?_, ?_⟩
      · show ((diffW (mapCellsW PF.log (pricesWide df "close"))).rows.map
          (fun r => (r.1, r.2.map PF.expm1)))[t + 1]? = _
        rw [List.getElem?_map, hD]
        rfl
      · rw [List.getElem?_map, hval, Option.map_some', PF.expm1_fin, if_neg hk]

/-- Witness for C1 on a concrete two-symbol panel (prices 1 and e for "A"). -/
theorem C1_log_and_simple_return_formula_witness :
    ((panelDates panelPos)[0]? = some 0
      ∧ (panelDates panelPos)[1]? = some 1
      ∧ (panelSymbols panelPos)[0]? = some "A"
      ∧ cellLookup panelPos "A" 0 "close" = PF.fin 1
      ∧ cellLookup panelPos "A" 1 "close" = PF.fin (Real.exp 1)
      ∧ (0 : ℝ) < 1 ∧ (0 : ℝ) < Real.exp 1)
    ∧ (∃ w, calculate_returns_wide panelPos "log" none false "close" = Except.ok w
      ∧ (∀ row ∈ w.rows, row.1 = 1 →
          row.2[0]? = some (if "log" = "log"
            then PF.fin (Real.log (Real.exp 1) - Real.log 1)
            else PF.fin (Real.exp (Real.log (Real.exp 1) - Real.log 1) - 1)))
      ∧ (false = false → ∃ vals, w.rows[0 + 1]? = some (1, vals)
          ∧ vals[0]? = some (if "log" = "log"
              then PF.fin (Real.log (Real.exp 1) - Real.log 1)
              else PF.fin (Real.exp (Real.log (Real.exp 1) - Real.log 1) - 1)))) := by
  refine ⟨⟨by decide, by decide, by decide, rfl, rfl, by norm_num, Real.exp_pos 1⟩, ?_⟩
  exact C1_log_and_simple_return_formula panelPos "log" false ⟨by decide, by decide⟩
    0 0 0 1 "A" 1 (Real.exp 1) (by decide) (by decide) (by decide) rfl rfl
    (by norm_num) (Real.exp_pos 1)

/-- C8: when either of two consecutive observed prices of a symbol is zero or
negative, the `kind = 'log'` return cell at that position is non-finite
(NaN or a signed infinity) and in particular never any finite number — never
a silent zero; the computation is total, so no exception is raised. -/
theorem C8_nonpositive_price_nonfinite_return (df : LongFrame)
    (hcols : "index_name" ∈ df.valCols ∧ "close" ∈ df.valCols.erase "index_name")
    (t j d' d : ℕ) (s : String) (p q : ℝ)
    (hd' : (panelDates df)[t]? = some d') (hd : (panelDates df)[t + 1]? = some d)
    (hsym : (panelSymbols df)[j]? = some s)
    (hp : cellLookup df s d' "close" = PF.fin p) (hq : cellLookup df s d "close" = PF.fin q)
    (hnonpos : p ≤ 0 ∨ q ≤ 0) :
    ∃ w vals, calculate_returns_wide df "log" none false "close" = Except.ok w
      ∧ w.rows[t + 1]? = some (d, vals)
      ∧ (vals.getD j PF.nan).isFinite = false
      ∧ ∀ x : ℝ, vals.getD j PF.nan ≠ PF.fin x := by
  obtain ⟨vals, hD, hval⟩ := logdiff_cell df "close" t j d' d s hd' hd hsym
  rw [hp, hq] at hval
  have hgd : vals.getD j PF.nan = PF.sub (PF.log (PF.fin q)) (PF.log (PF.fin p)) := by
    rw [List.getD_eq_getElem?_getD, hval, Option.getD_some]
  have hnf : (vals.getD j PF.nan).isFinite = false := by
    rw [hgd]
    rcases hnonpos with hple | hqle
    · exact PF.sub_not_finite (Or.inr (PF.log_fin_nonpos hple))
    · exact PF.sub_not_finite (Or.inl (PF.log_fin_nonpos hqle))
  rw [calculate_returns_wide, if_pos hcols]
  exact ⟨_, vals, rfl, hD, hnf, PF.not_finite_ne_fin hnf⟩

/-- Witness for C8 on a panel whose second price is zero. -/
theorem C8_nonpositive_price_nonfinite_return_witness :
    ((panelDates panelZero)[0]? = some 0
      ∧ (panelDates panelZero)[1]? = some 1
      ∧ (panelSymbols panelZero)[0]? = some "A"
      ∧ cellLookup panelZero "A" 0 "close" = PF.fin 1
      ∧ cellLookup panelZero "A" 1 "close" = PF.fin 0
      ∧ ((1 : ℝ) ≤ 0 ∨ (0 : ℝ) ≤ 0))
    ∧ (∃ w vals, calculate_returns_wide panelZero "log" none false "close" = Except.ok w
      ∧ w.rows[0 + 1]? = some (1, vals)
      ∧ (vals.getD 0 PF.nan).isFinite = false
      ∧ ∀ x : ℝ, vals.getD 0 PF.nan ≠ PF.fin x) := by
  refine ⟨⟨by decide, by decide, by decide, rfl, rfl, Or.inr le_rfl⟩, ?_⟩
  exact C8_nonpositive_price_nonfinite_return panelZero ⟨by decide, by decide⟩
    0 0 0 1 "A" 1 0 (by decide) (by decide) (by decide) rfl rfl (Or.inr le_rfl)

/-- C5: resampling computes returns at native frequency first and sums the
log returns per bucket: the resampled call agrees per bucket with the
NaN-skipping sum of the native call's cells falling in that bucket; a
non-log kind is obtained by applying `expm1` only after the bucket sums;
and `sum_at_frequency` is the identity at natural frequency and the per-
bucket sum at the supported coarser frequencies. -/
theorem C5_resample_sums_native_log_returns (df : LongFrame) (b : ℕ → ℕ) (dropna : Bool)
    (cc : String) (hcols : "index_name" ∈ df.valCols ∧ cc ∈ df.valCols.erase "index_name") :
    ∃ wN wR,
      calculate_returns_wide df "log" none dropna cc = Except.ok wN
      ∧ calculate_returns_wide df "log" (some b) dropna cc = Except.ok wR
      ∧ wR.symbols = wN.symbols
      ∧ (∀ row ∈ wR.rows, ∀ j, j < wN.symbols.length →
          row.2.getD j PF.nan
            = pfListSum ((wN.rows.filter (fun r => b r.1 = row.1)).map
                (fun r => r.2.getD j PF.nan)))
      ∧ (∀ kind, kind ≠ "log" →
          calculate_returns_wide df kind (some b) dropna cc
            = Except.ok (mapCellsW PF.expm1 wR))
      ∧ (∀ (assign : Frequency → ℕ → ℕ) (s : Series),
          sum_at_frequency assign s Frequency.Natural = some s
          ∧ (∀ f, f = Frequency.Year ∨ f = Frequency.Month ∨ f = Frequency.Week →
              ∃ out, sum_at_frequency assign s f = some out
                ∧ ∀ pr ∈ out, pr.2 = pfListSum
                    ((s.filter (fun q => assign f q.1 = pr.1)).map (fun q => q.2)))) := by
  have hN : calculate_returns_wide df "log" none dropna cc
      = Except.ok (if dropna then dropnaW (diffW (mapCellsW PF.log (pricesWide df cc)))
          else diffW (mapCellsW PF.log (pricesWide df cc))) := by
    rw [calculate_returns_wide, if_pos hcols]
    rfl
  have hR : calculate_returns_wide df "log" (some b) dropna cc
      = Except.ok (resampleSumW b
          (if dropna then dropnaW (diffW (mapCellsW PF.log (pricesWide df cc)))
            else diffW (mapCellsW PF.log (pricesWide df cc)))) := by
    rw [calculate_returns_wide, if_pos hcols]
    rfl
  have hE : ∀ kind, kind ≠ "log" → calculate_returns_wide df kind (some b) dropna cc
      = Except.ok (mapCellsW PF.expm1 (resampleSumW b
          (if dropna then dropnaW (diffW (mapCellsW PF.log (pricesWide df cc)))
            else diffW (mapCellsW PF.log (pricesWide df cc))))) := by
    intro kind hkind
    rw [calculate_returns_wide, if_pos hcols]
    show Except.ok (if kind = "log"
        then resampleSumW b (if dropna then dropnaW (diffW (mapCellsW PF.log (pricesWide df cc)))
          else diffW (mapCellsW PF.log (pricesWide df cc)))
        else mapCellsW PF.expm1 (resampleSumW b
          (if dropna then dropnaW (diffW (mapCellsW PF.log (pricesWide df cc)))
            else diffW (mapCellsW PF.log (pricesWide df cc))))) = _
    rw [if_neg hkind]
  refine ⟨_, _, hN, hR, rfl, ?_, hE, ?_⟩
  · intro row hrow j hj
    replace hrow : row ∈ (sortDedup (((if dropna
        then dropnaW (diffW (mapCellsW PF.log (pricesWide df cc)))
        else diffW (mapCellsW PF.log (pricesWide df cc))).rows).map (fun r => b r.1))).map
          (fun label => (label, (List.range (if dropna
              then dropnaW (diffW (mapCellsW PF.log (pricesWide df cc)))
              else diffW (mapCellsW PF.log (pricesWide df cc))).symbols.length).map (fun j =>
            pfListSum (((if dropna
                then dropnaW (diffW (mapCellsW PF.log (pricesWide df cc)))
                else diffW (mapCellsW PF.log (pricesWide df cc))).rows.filter
                  (fun r => b r.1 = label)).map (fun r => r.2.getD j PF.nan))))) := hrow
    rcases List.mem_map.mp hrow with ⟨label, _, rfl⟩
    show ((List.range _).map _).getD j PF.nan = _
    rw [List.getD_eq_getElem?_getD, List.getElem?_map, List.getElem?_range hj]
    rfl
  · intro assign s
    refine ⟨rfl, ?_⟩
    intro f hf
    rcases hf with rfl | rfl | rfl
    all_goals {
      refine ⟨resampleSeries (assign _) s, rfl, ?_⟩
      intro pr hpr
      rcases List.mem_map.mp hpr with ⟨label, _, rfl⟩
      rfl
    }

/-- Witness for C5 at a concrete panel and the bucket map pairing the days. -/
theorem C5_resample_sums_native_log_returns_witness :
    ("index_name" ∈ panelRT.valCols ∧ "close" ∈ panelRT.valCols.erase "index_name")
    ∧ (∃ wN wR,
      calculate_returns_wide panelRT "log" none true "close" = Except.ok wN
      ∧ calculate_returns_wide panelRT "log" (some (fun d => d / 2)) true "close" = Except.ok wR
      ∧ wR.symbols = wN.symbols
      ∧ (∀ row ∈ wR.rows, ∀ j, j < wN.symbols.length →
          row.2.getD j PF.nan
            = pfListSum ((wN.rows.filter (fun r => r.1 / 2 = row.1)).map
                (fun r => r.2.getD j PF.nan)))
      ∧ (∀ kind, kind ≠ "log" →
          calculate_returns_wide panelRT kind (some (fun d => d / 2)) true "close"
            = Except.ok (mapCellsW PF.expm1 wR))
      ∧ (∀ (assign : Frequency → ℕ → ℕ) (s : Series),
          sum_at_frequency assign s Frequency.Natural = some s
          ∧ (∀ f, f = Frequency.Year ∨ f = Frequency.Month ∨ f = Frequency.Week →
              ∃ out, sum_at_frequency assign s f = some out
                ∧ ∀ pr ∈ out, pr.2 = pfListSum
                    ((s.filter (fun q => assign f q.1 = pr.1)).map (fun q => q.2))))) :=
  ⟨⟨by decide, by decide⟩,
   C5_resample_sums_native_log_returns panelRT (fun d => d / 2) true "close"
     ⟨by decide, by decide⟩⟩

theorem PF.log_nan : PF.log PF.nan = PF.nan := rfl

/-- C3 (counterexample): on two symbols with misaligned calendars,
`dropna = true` also removes the day-2 row, in which "A" has a defined
return and only "B" is missing — the claim says such rows are kept.
pandas `dropna()` defaults to `how='any'`, not `how='all'`. -/
theorem C3_counterexample_partial_row_dropped :
    calculate_returns_wide panelGap "log" none false "close"
      = Except.ok ⟨["A", "B"],
          [(1, [PF.nan, PF.nan]), (2, [PF.fin 0, PF.nan]), (3, [PF.fin 0, PF.fin 0])]⟩
    ∧ calculate_returns_wide panelGap "log" none true "close"
      = Except.ok ⟨["A", "B"], [(3, [PF.fin 0, PF.fin 0])]⟩
    ∧ (¬ ∀ v ∈ [PF.fin (0 : ℝ), PF.nan], v.isNan = true)
    ∧ (∀ vals : List PF, ((2 : ℕ), vals) ∉ [((3 : ℕ), [PF.fin (0 : ℝ), PF.fin 0])]) := by
  have hP : pricesWide panelGap "close"
      = ⟨["A", "B"], [(1, [PF.fin 1, PF.nan]), (2, [PF.fin 1, PF.fin 1]),
          (3, [PF.fin 1, PF.fin 1])]⟩ := rfl
  have hL : mapCellsW PF.log (pricesWide panelGap "close")
      = ⟨["A", "B"], [(1, [PF.fin 0, PF.nan]), (2, [PF.fin 0, PF.fin 0]),
          (3, [PF.fin 0, PF.fin 0])]⟩ := by
    rw [hP]
    simp [mapCellsW, PF.log_fin_pos (show (0 : ℝ) < 1 by norm_num), Real.log_one, PF.log_nan]
  have hD : diffW (mapCellsW PF.log (pricesWide panelGap "close"))
      = ⟨["A", "B"],
          [(1, [PF.nan, PF.nan]), (2, [PF.fin 0, PF.nan]), (3, [PF.fin 0, PF.fin 0])]⟩ := by
    rw [hL]
    simp [diffW, PF.sub_fin_fin, PF.sub_nan_right, PF.sub_nan_left]
  refine ⟨?_, ?_, by simp [PF.isNan], by simp⟩
  · rw [calculate_returns_wide, if_pos (by decide : ("index_name" ∈ panelGap.valCols
      ∧ "close" ∈ panelGap.valCols.erase "index_name")), hD]
    rfl
  · rw [calculate_returns_wide, if_pos (by decide : ("index_name" ∈ panelGap.valCols
      ∧ "close" ∈ panelGap.valCols.erase "index_name")), hD]
    rfl

/-- C3 (amended): `dropna = true` keeps exactly the rows of the
`dropna = false` table in which no cell is missing — every row containing at
least one NaN is removed (`how='any'`), and the kept rows are unchanged
(no filling or interpolation). -/
theorem C3_dropna_removes_any_missing (df : LongFrame) (cc : String)
    (hcols : "index_name" ∈ df.valCols ∧ cc ∈ df.valCols.erase "index_name") :
    ∃ wAll wDrop,
      calculate_returns_wide df "log" none false cc = Except.ok wAll
      ∧ calculate_returns_wide df "log" none true cc = Except.ok wDrop
      ∧ wDrop.symbols = wAll.symbols
      ∧ wDrop.rows = wAll.rows.filter (fun r => r.2.all (fun v => !v.isNan)) := by
  have hN : calculate_returns_wide df "log" none false cc
      = Except.ok (diffW (mapCellsW PF.log (pricesWide df cc))) := by
    rw [calculate_returns_wide, if_pos hcols]
    rfl
  have hT : calculate_returns_wide df "log" none true cc
      = Except.ok (dropnaW (diffW (mapCellsW PF.log (pricesWide df cc)))) := by
    rw [calculate_returns_wide, if_pos hcols]
    rfl
  exact ⟨_, _, hN, hT, rfl, rfl⟩

/-- Witness for the amended C3 on the misaligned-calendar panel. -/
theorem C3_dropna_removes_any_missing_witness :
    ("index_name" ∈ panelGap.valCols ∧ "close" ∈ panelGap.valCols.erase "index_name")
    ∧ (∃ wAll wDrop,
      calculate_returns_wide panelGap "log" none false "close" = Except.ok wAll
      ∧ calculate_returns_wide panelGap "log" none true "close" = Except.ok wDrop
      ∧ wDrop.symbols = wAll.symbols
      ∧ wDrop.rows = wAll.rows.filter (fun r => r.2.all (fun v => !v.isNan))) :=
  ⟨⟨by decide, by decide⟩,
   C3_dropna_removes_any_missing panelGap "close" ⟨by decide, by decide⟩⟩

theorem PF.log1p_expm1 (a : ℝ) : PF.log1p (PF.fin (Real.exp a - 1)) = PF.fin a := by
  rw [PF.log1p, PF.add_fin_fin]
  have h1 : Real.exp a - 1 + 1 = Real.exp a := by ring
  rw [h1, PF.log_fin_pos (Real.exp_pos a), Real.log_exp]

/-- The simple-return table of the round-trip panel. -/
theorem returns_simple_panelRT :
    calculate_returns_wide panelRT "simple" none true "close"
      = Except.ok ⟨["A"],
          [(1, [PF.fin (Real.exp (Real.log 105 - Real.log 100) - 1)]),
           (2, [PF.fin (Real.exp (Real.log 110 - Real.log 105) - 1)]),
           (3, [PF.fin (Real.exp (Real.log 90 - Real.log 110) - 1)]),
           (4, [PF.fin (Real.exp (Real.log 95 - Real.log 90) - 1)])]⟩ := by
  have hP : pricesWide panelRT "close"
      = ⟨["A"], [(0, [PF.fin 100]), (1, [PF.fin 105]), (2, [PF.fin 110]),
          (3, [PF.fin 90]), (4, [PF.fin 95])]⟩ := rfl
  have hL : mapCellsW PF.log (pricesWide panelRT "close")
      = ⟨["A"], [(0, [PF.fin (Real.log 100)]), (1, [PF.fin (Real.log 105)]),
          (2, [PF.fin (Real.log 110)]), (3, [PF.fin (Real.log 90)]),
          (4, [PF.fin (Real.log 95)])]⟩ := by
    rw [hP]
    simp [mapCellsW, PF.log_fin_pos (show (0 : ℝ) < 100 by norm_num),
      PF.log_fin_pos (show (0 : ℝ) < 105 by norm_num),
      PF.log_fin_pos (show (0 : ℝ) < 110 by norm_num),
      PF.log_fin_pos (show (0 : ℝ) < 90 by norm_num),
      PF.log_fin_pos (show (0 : ℝ) < 95 by norm_num)]
  have hD : diffW (mapCellsW PF.log (pricesWide panelRT "close"))
      = ⟨["A"], [(0, [PF.nan]),
          (1, [PF.fin (Real.log 105 - Real.log 100)]),
          (2, [PF.fin (Real.log 110 - Real.log 105)]),
          (3, [PF.fin (Real.log 90 - Real.log 110)]),
          (4, [PF.fin (Real.log 95 - Real.log 90)])]⟩ := by
    rw [hL]
    simp [diffW, PF.sub_fin_fin]
  have hDrop : dropnaW (diffW (mapCellsW PF.log (pricesWide panelRT "close")))
      = ⟨["A"], [(1, [PF.fin (Real.log 105 - Real.log 100)]),
          (2, [PF.fin (Real.log 110 - Real.log 105)]),
          (3, [PF.fin (Real.log 90 - Real.log 110)]),
          (4, [PF.fin (Real.log 95 - Real.log 90)])]⟩ := by
    rw [hD]
    rfl
  rw [calculate_returns_wide, if_pos (by decide : ("index_name" ∈ panelRT.valCols
      ∧ "close" ∈ panelRT.valCols.erase "index_name"))]
  show Except.ok (if "simple" = "log"
      then dropnaW (diffW (mapCellsW PF.log (pricesWide panelRT "close")))
      else mapCellsW PF.expm1
        (dropnaW (diffW (mapCellsW PF.log (pricesWide panelRT "close"))))) = _
  rw [if_neg (by decide : ¬ ("simple" = "log")), hDrop]
  simp [mapCellsW, PF.expm1_fin]

/-- The NAV list computed from the round-trip panel's simple-return series
through the drawdown growth curve. -/
theorem navRebased_panelRT :
    navRebased [(1, PF.fin (Real.exp (Real.log 105 - Real.log 100) - 1)),
        (2, PF.fin (Real.exp (Real.log 110 - Real.log 105) - 1)),
        (3, PF.fin (Real.exp (Real.log 90 - Real.log 110) - 1)),
        (4, PF.fin (Real.exp (Real.log 95 - Real.log 90) - 1))]
      = [PF.fin 100, PF.fin 105, PF.fin 110, PF.fin 90, PF.fin 95] := by
  unfold navRebased drawdownCum
  simp only [List.map_cons]
  simp only [List.map_nil, PF.log1p_expm1, cumsumPF, PF.isNan,
    Bool.false_eq_true, if_false, PF.add_fin_fin]
  simp only [List.map_cons, List.map_nil, PF.exp, PF.mul_fin_fin]
  have e1 : (100 : ℝ) * Real.exp (0 + (Real.log 105 - Real.log 100)) = 105 := by
    rw [zero_add, Real.exp_sub, Real.exp_log (by norm_num), Real.exp_log (by norm_num)]
    norm_num
  have e2 : (100 : ℝ) * Real.exp (0 + (Real.log 105 - Real.log 100)
      + (Real.log 110 - Real.log 105)) = 110 := by
    have : (0 : ℝ) + (Real.log 105 - Real.log 100) + (Real.log 110 - Real.log 105)
        = Real.log 110 - Real.log 100 := by ring
    rw [this, Real.exp_sub, Real.exp_log (by norm_num), Real.exp_log (by norm_num)]
    norm_num
  have e3 : (100 : ℝ) * Real.exp (0 + (Real.log 105 - Real.log 100)
      + (Real.log 110 - Real.log 105) + (Real.log 90 - Real.log 110)) = 90 := by
    have : (0 : ℝ) + (Real.log 105 - Real.log 100) + (Real.log 110 - Real.log 105)
        + (Real.log 90 - Real.log 110) = Real.log 90 - Real.log 100 := by ring
    rw [this, Real.exp_sub, Real.exp_log (by norm_num), Real.exp_log (by norm_num)]
    norm_num
  have e4 : (100 : ℝ) * Real.exp (0 + (Real.log 105 - Real.log 100)
      + (Real.log 110 - Real.log 105) + (Real.log 90 - Real.log 110)
      + (Real.log 95 - Real.log 90)) = 95 := by
    have : (0 : ℝ) + (Real.log 105 - Real.log 100) + (Real.log 110 - Real.log 105)
        + (Real.log 90 - Real.log 110) + (Real.log 95 - Real.log 90)
        = Real.log 95 - Real.log 100 := by ring
    rw [this, Real.exp_sub, Real.exp_log (by norm_num), Real.exp_log (by norm_num)]
    norm_num
  rw [e1, e2, e3, e4]

/-- The rebased NAV built from the round-trip panel's simple returns through
the drawdown growth curve reproduces the prices exactly. -/
theorem nav_panelRT :
    (calculate_returns_wide panelRT "simple" none true "close").map
        (fun w => navRebased (columnSeries w 0))
      = Except.ok [PF.fin 100, PF.fin 105, PF.fin 110, PF.fin 90, PF.fin 95] := by
  rw [returns_simple_panelRT]
  show Except.ok (navRebased (columnSeries _ 0)) = _
  rw [show columnSeries ⟨["A"],
      [(1, [PF.fin (Real.exp (Real.log 105 - Real.log 100) - 1)]),
       (2, [PF.fin (Real.exp (Real.log 110 - Real.log 105) - 1)]),
       (3, [PF.fin (Real.exp (Real.log 90 - Real.log 110) - 1)]),
       (4, [PF.fin (Real.exp (Real.log 95 - Real.log 90) - 1)])]⟩ 0
      = [(1, PF.fin (Real.exp (Real.log 105 - Real.log 100) - 1)),
         (2, PF.fin (Real.exp (Real.log 110 - Real.log 105) - 1)),
         (3, PF.fin (Real.exp (Real.log 90 - Real.log 110) - 1)),
         (4, PF.fin (Real.exp (Real.log 95 - Real.log 90) - 1))] from rfl,
    navRebased_panelRT]

/-- C9 (counterexample): the NAV rebased to 100 from the round-trip panel's
return series is exactly 90 at the fourth point, not the 90.9090… (1000/11)
the claim quotes — off by 10/11, far beyond floating-point tolerance. -/
theorem C9_counterexample_quoted_path_wrong :
    (calculate_returns_wide panelRT "simple" none true "close").map
        (fun w => (navRebased (columnSeries w 0)).getD 3 PF.nan)
      = Except.ok (PF.fin 90)
    ∧ ¬ |(90 : ℝ) - 1000 / 11| < 1 / 3 := by
  constructor
  · rw [returns_simple_panelRT]
    show Except.ok ((navRebased (columnSeries _ 0)).getD 3 PF.nan) = _
    rw [show columnSeries ⟨["A"],
        [(1, [PF.fin (Real.exp (Real.log 105 - Real.log 100) - 1)]),
         (2, [PF.fin (Real.exp (Real.log 110 - Real.log 105) - 1)]),
         (3, [PF.fin (Real.exp (Real.log 90 - Real.log 110) - 1)]),
         (4, [PF.fin (Real.exp (Real.log 95 - Real.log 90) - 1)])]⟩ 0
        = [(1, PF.fin (Real.exp (Real.log 105 - Real.log 100) - 1)),
           (2, PF.fin (Real.exp (Real.log 110 - Real.log 105) - 1)),
           (3, PF.fin (Real.exp (Real.log 90 - Real.log 110) - 1)),
           (4, PF.fin (Real.exp (Real.log 95 - Real.log 90) - 1))] from rfl,
      navRebased_panelRT]
    rfl
  · rw [abs_sub_comm, abs_of_pos (by norm_num)]
    norm_num

/-- C9 (amended): the round-trip path is `[100, 105, 110, 90, 95]` exactly —
the rebased NAV reproduces the input prices (the spec's quoted values
90.9090… and 95.909… are wrong). -/
theorem C9_nav_round_trip_exact :
    (calculate_returns_wide panelRT "simple" none true "close").map
        (fun w => navRebased (columnSeries w 0))
      = Except.ok [PF.fin 100, PF.fin 105, PF.fin 110, PF.fin 90, PF.fin 95] :=
  nav_panelRT

end IndexApp
